import Mathlib

/-!
# gr_fll_band_edge_cc: band-edge frequency-locked loop

A shallow embedding of `gnuradio-core/src/lib/general/gr_fll_band_edge_cc.cc`.

* `float` is read as an exact ordered field `K` (no rounding, no NaN); `int` is `Int`.
* `gr_complex` is a pair of scalars; `norm` is the squared magnitude, as in `std::norm`.
* The libm / gr_math primitives the file calls (`M_PI`, `sin`, `sqrt`, `rint`, and the
  sine/cosine pair behind `gr_expj`) are not part of the file; they are the fields of `Libm`.
  `realLibm` is their reading over the real numbers.
* A member function that may throw returns an `Outcome`, which carries the object as the
  call leaves it in every case, so that "nothing was modified" is a statement about values.
* The exact reading has no value for a quotient by zero, where the machine stores NaN or an
  infinity. The only division by a computed quantity is the tap normalisation in
  `design_filter`; at a zero normaliser the design is `Outcome.non_finite`, and the states
  after it are not among the `Reachable` ones.
* Sample buffers are pointers in the source; here they are total functions on `Int`.
-/

namespace FllBandEdge

/-- Complex sample, `gr_complex` in the source. -/
structure gr_complex (K : Type) where
  re : K
  im : K

/-- Primitives of libm and gr_math used by the block. -/
structure Libm (K : Type) where
  pi : K
  sin : K → K
  cos : K → K
  sqrt : K → K
  rint : K → Int

/-- Result of a call. `ok`: the call returned and every member of the object is a number.
`out_of_range`: the call threw `std::out_of_range`. `non_finite`: the call returned, and the
entries it stored in the two tap vectors are quotients by zero (NaN or an infinity), which
are no numbers of `K`. Every case carries the object at the point where control leaves the
function; in the `non_finite` case the entries of its tap vectors are placeholders and only
their number is meaningful. -/
inductive Outcome (σ : Type) where
  | ok : σ → Outcome σ
  | out_of_range : σ → Outcome σ
  | non_finite : σ → Outcome σ

/-- Data members of `gr_fll_band_edge_cc`, with the `d_history` member of its base class. -/
structure State (K : Type) where
  d_sps : K
  d_rolloff : K
  d_filter_size : Int
  d_loop_bw : K
  d_damping : K
  d_alpha : K
  d_beta : K
  d_max_freq : K
  d_min_freq : K
  d_taps_lower : List (gr_complex K)
  d_taps_upper : List (gr_complex K)
  d_updated : Bool
  d_freq : K
  d_phase : K
  d_history : Int

/-- The `output_items` vector of `work`: its size, the corrected stream, and the three
diagnostic streams (only present, and only written, when the size is 4). -/
structure OutputItems (K : Type) where
  size : Nat
  out : Int → gr_complex K
  frq : Int → K
  phs : Int → K
  err : Int → K

/-- What a `work` call leaves behind: the returned count, the object, the output buffers. -/
structure WorkResult (K : Type) where
  ret : Int
  state : State K
  items : OutputItems K

section Complex

variable {K : Type} [LinearOrderedField K]

instance : Zero (gr_complex K) := ⟨⟨0, 0⟩⟩

instance : One (gr_complex K) := ⟨⟨1, 0⟩⟩

instance : Add (gr_complex K) := ⟨fun a b => ⟨a.re + b.re, a.im + b.im⟩⟩

instance : Mul (gr_complex K) := ⟨fun a b => ⟨a.re * b.re - a.im * b.im, a.re * b.im + a.im * b.re⟩⟩

/-- Product `float * gr_complex`. -/
def gr_complex.scale (t : K) (z : gr_complex K) : gr_complex K := ⟨t * z.re, t * z.im⟩

/-- Squared magnitude, `std::norm`. -/
def gr_complex.norm (z : gr_complex K) : K := z.re * z.re + z.im * z.im

/-- Complex conjugate. -/
def gr_complex.conj (z : gr_complex K) : gr_complex K := ⟨z.re, -z.im⟩

/-- Unit phasor `gr_expj(phase)`: cosine as real part, sine as imaginary part. -/
def gr_expj (L : Libm K) (phase : K) : gr_complex K := ⟨L.cos phase, L.sin phase⟩

end Complex

section Block

variable {K : Type} [LinearOrderedField K]

/-- The macro `M_TWOPI`. -/
def M_TWOPI (L : Libm K) : K := 2 * L.pi

/-- The free function `sinc`. -/
def sinc (L : Libm K) (x : K) : K :=
  if x = 0 then 1 else L.sin (L.pi * x) / (L.pi * x)

/-- `update_gains`. -/
def update_gains (s : State K) : State K :=
  let denom := 1 + 2 * s.d_damping * s.d_loop_bw + s.d_loop_bw * s.d_loop_bw
  let s1 := { s with d_alpha := (4 * s.d_damping * s.d_loop_bw) / denom }
  { s1 with d_beta := (4 * s1.d_loop_bw * s1.d_loop_bw) / denom }

/-- First loop of `design_filter` after `n` iterations: the vector `bb_taps` and `power`. -/
def bb_loop (L : Libm K) (samps_per_sym rolloff : K) (M : Int) : Nat → List K × K
  | 0 => ([], 0)
  | i + 1 =>
    let acc := bb_loop L samps_per_sym rolloff M i
    let k : K := -(M : K) + (i : K) * 2 / samps_per_sym
    let tap := sinc L (rolloff * k - 1 / 2) + sinc L (rolloff * k + 1 / 2)
    (acc.1 ++ [tap], acc.2 + tap)

/-- `std::vector::resize` with value-initialised new entries. -/
def resize (v : List (gr_complex K)) (n : Nat) : List (gr_complex K) :=
  v.take n ++ List.replicate (n - v.length) 0

/-- Second loop of `design_filter` after `n` iterations, acting on the two tap vectors.
Each iteration divides by `power`: when `power` is zero the quotient is no number and the
result is `none`. -/
def spin_loop (L : Libm K) (samps_per_sym rolloff : K) (filter_size : Int)
    (bb_taps : List K) (power : K) (N : Int)
    (lower upper : List (gr_complex K)) :
    Nat → Option (List (gr_complex K) × List (gr_complex K))
  | 0 => some (lower, upper)
  | i + 1 =>
    match spin_loop L samps_per_sym rolloff filter_size bb_taps power N lower upper i with
    | none => none
    | some acc =>
      if power = 0 then none
      else
        let tap := bb_taps.getD i 0 / power
        let k : K := (-(N : K) + (i : K)) / (2 * samps_per_sym)
        let t1 := gr_complex.scale tap (gr_expj L (-M_TWOPI L * (1 + rolloff) * k))
        let t2 := gr_complex.scale tap (gr_expj L (M_TWOPI L * (1 + rolloff) * k))
        some (acc.1.set (filter_size - i - 1).toNat t1,
          acc.2.set (filter_size - i - 1).toNat t2)

/-- The normaliser of a design: the value of the local `power` of `design_filter` after its
first loop, the signed sum of the prototype taps. -/
def design_power (L : Libm K) (samps_per_sym rolloff : K) (filter_size : Int) : K :=
  (bb_loop L samps_per_sym rolloff (L.rint ((filter_size : K) / samps_per_sym))
    filter_size.toNat).2

/-- `design_filter`. Both loops run `filter_size` times (no times when it is not positive).
When the second loop divides by a zero `power`, the outcome is `non_finite`: the vectors
have been resized, the flag and the history are set, and the tap entries are no numbers. -/
def design_filter (L : Libm K) (s : State K) (samps_per_sym rolloff : K) (filter_size : Int) :
    Outcome (State K) :=
  let M : Int := L.rint ((filter_size : K) / samps_per_sym)
  let bb := bb_loop L samps_per_sym rolloff M filter_size.toNat
  let lower := resize s.d_taps_lower filter_size.toNat
  let upper := resize s.d_taps_upper filter_size.toNat
  let N : Int := Int.tdiv ((bb.1.length : Int) - 1) 2
  match spin_loop L samps_per_sym rolloff filter_size bb.1 bb.2 N lower upper
      filter_size.toNat with
  | some taps =>
    .ok { s with d_taps_lower := taps.1, d_taps_upper := taps.2, d_updated := true,
                 d_history := filter_size + 1 }
  | none =>
    .non_finite { s with d_taps_lower := lower, d_taps_upper := upper, d_updated := true,
                         d_history := filter_size + 1 }

/-- `set_loop_bandwidth`. -/
def set_loop_bandwidth (s : State K) (bw : K) : Outcome (State K) :=
  if bw < 0 then .out_of_range s
  else .ok (update_gains { s with d_loop_bw := bw })

/-- `set_damping_factor`. -/
def set_damping_factor (s : State K) (df : K) : Outcome (State K) :=
  if df < 0 ∨ df > 1 then .out_of_range s
  else .ok (update_gains { s with d_damping := df })

/-- `set_alpha`. -/
def set_alpha (s : State K) (alpha : K) : Outcome (State K) :=
  if alpha < 0 ∨ alpha > 1 then .out_of_range s
  else .ok { s with d_alpha := alpha }

/-- `set_beta`. -/
def set_beta (s : State K) (beta : K) : Outcome (State K) :=
  if beta < 0 ∨ beta > 1 then .out_of_range s
  else .ok { s with d_beta := beta }

/-- `set_samples_per_symbol`. -/
def set_samples_per_symbol (L : Libm K) (s : State K) (sps : K) : Outcome (State K) :=
  if sps ≤ 0 then .out_of_range s
  else
    let s1 := { s with d_sps := sps }
    design_filter L s1 s1.d_sps s1.d_rolloff s1.d_filter_size

/-- `set_rolloff`. -/
def set_rolloff (L : Libm K) (s : State K) (rolloff : K) : Outcome (State K) :=
  if rolloff < 0 ∨ rolloff > 1 then .out_of_range s
  else
    let s1 := { s with d_rolloff := rolloff }
    design_filter L s1 s1.d_sps s1.d_rolloff s1.d_filter_size

/-- `set_filter_size`. -/
def set_filter_size (L : Libm K) (s : State K) (filter_size : Int) : Outcome (State K) :=
  if filter_size ≤ 0 then .out_of_range s
  else
    let s1 := { s with d_filter_size := filter_size }
    design_filter L s1 s1.d_sps s1.d_rolloff s1.d_filter_size

/-- `get_loop_bandwidth`. -/
def get_loop_bandwidth (s : State K) : K := s.d_loop_bw

/-- `get_damping_factor`. -/
def get_damping_factor (s : State K) : K := s.d_damping

/-- `get_alpha`. -/
def get_alpha (s : State K) : K := s.d_alpha

/-- `get_beta`. -/
def get_beta (s : State K) : K := s.d_beta

/-- `get_samples_per_symbol`. -/
def get_samples_per_symbol (s : State K) : K := s.d_sps

/-- `get_rolloff`. -/
def get_rolloff (s : State K) : K := s.d_rolloff

/-- `get_filter_size`. -/
def get_filter_size (s : State K) : Int := s.d_filter_size

/-- The object as the constructor body finds it: `raw` is the indeterminate content of the
scalar members, the initialiser list has set `d_updated` to false and the two vectors are
default-constructed. -/
def fresh (raw : State K) : State K :=
  { raw with d_updated := false, d_taps_lower := [], d_taps_upper := [] }

/-- The constructor `gr_fll_band_edge_cc::gr_fll_band_edge_cc`. -/
def gr_fll_band_edge_cc (L : Libm K) (raw : State K) (samps_per_sym rolloff : K)
    (filter_size : Int) (bandwidth : K) : Outcome (State K) :=
  let s0 := fresh raw
  if samps_per_sym ≤ 0 then .out_of_range s0
  else
    let s1 := { s0 with d_sps := samps_per_sym }
    if rolloff < 0 ∨ rolloff > 1 then .out_of_range s1
    else
      let s2 := { s1 with d_rolloff := rolloff }
      if filter_size ≤ 0 then .out_of_range s2
      else
        let s3 := { s2 with d_filter_size := filter_size }
        if bandwidth < 0 then .out_of_range s3
        else
          let s4 := { s3 with d_loop_bw := bandwidth }
          let s5 := { s4 with d_max_freq := M_TWOPI L * (2 / samps_per_sym) }
          let s6 := { s5 with d_min_freq := -M_TWOPI L * (2 / samps_per_sym) }
          let s7 := { s6 with d_damping := L.sqrt 2 / 2 }
          match set_loop_bandwidth s7 bandwidth with
          | .out_of_range e => .out_of_range e
          | .non_finite e => .non_finite e
          | .ok s8 =>
            match design_filter L s8 s8.d_sps s8.d_rolloff s8.d_filter_size with
            | .ok s9 => .ok { s9 with d_freq := 0, d_phase := 0 }
            | .non_finite s9 => .non_finite { s9 with d_freq := 0, d_phase := 0 }
            | .out_of_range e => .out_of_range e

/-- Inner loop of `work` after `n` iterations: the accumulator `out_upper` (or `out_lower`)
for the tap vector `taps` and the window of `out` starting at `i`. -/
def dot (taps : List (gr_complex K)) (out : Int → gr_complex K) (i : Int) :
    Nat → gr_complex K
  | 0 => 0
  | k + 1 => dot taps out i k + taps.getD k 0 * out (i + k)

/-- One iteration of the sample loop of `work`, for loop index `i`. -/
def work_body (L : Libm K) (inp : Int → gr_complex K) (i : Nat)
    (st : State K × OutputItems K) : State K × OutputItems K :=
  let s := st.1
  let o := st.2
  let nco_out := gr_expj L s.d_phase
  let out := Function.update o.out ((i : Int) + s.d_filter_size - 1) (inp i * nco_out)
  let out_upper := dot s.d_taps_upper out i s.d_filter_size.toNat
  let out_lower := dot s.d_taps_lower out i s.d_filter_size.toNat
  let error := out_lower.norm - out_upper.norm
  let freq1 := s.d_freq + s.d_beta * error
  let phase1 := s.d_phase + freq1 + s.d_alpha * error
  let phase2 :=
    if phase1 > L.pi then phase1 - M_TWOPI L
    else if phase1 < -L.pi then phase1 + M_TWOPI L
    else phase1
  let freq2 :=
    if freq1 > s.d_max_freq then s.d_max_freq
    else if freq1 < s.d_min_freq then s.d_min_freq
    else freq1
  let s1 := { s with d_freq := freq2, d_phase := phase2 }
  if o.size = 4 then
    (s1, { o with out := out, frq := Function.update o.frq i freq2,
                  phs := Function.update o.phs i phase2,
                  err := Function.update o.err i error })
  else
    (s1, { o with out := out })

/-- The sample loop of `work` after `n` iterations (`i = 0, ..., n - 1`). -/
def work_loop (L : Libm K) (inp : Int → gr_complex K) (st : State K × OutputItems K) :
    Nat → State K × OutputItems K
  | 0 => st
  | i + 1 => work_body L inp i (work_loop L inp st i)

/-- `work`. -/
def work (L : Libm K) (s : State K) (noutput_items : Int) (inp : Int → gr_complex K)
    (output_items : OutputItems K) : WorkResult K :=
  if s.d_updated then
    ⟨0, { s with d_updated := false }, output_items⟩
  else
    let st := work_loop L inp (s, output_items) noutput_items.toNat
    ⟨noutput_items, st.1, st.2⟩

/-- States the block can be in with every member a number: built by the constructor, then
driven by successful setter calls and by `work` calls with arbitrary arguments, every filter
design on the way having a normaliser that is not zero. -/
inductive Reachable (L : Libm K) : State K → Prop where
  | construct (raw : State K) (sps rolloff : K) (filter_size : Int) (bw : K) (s : State K) :
      gr_fll_band_edge_cc L raw sps rolloff filter_size bw = .ok s → Reachable L s
  | loop_bandwidth (s : State K) (bw : K) (t : State K) :
      Reachable L s → set_loop_bandwidth s bw = .ok t → Reachable L t
  | damping_factor (s : State K) (df : K) (t : State K) :
      Reachable L s → set_damping_factor s df = .ok t → Reachable L t
  | alpha (s : State K) (a : K) (t : State K) :
      Reachable L s → set_alpha s a = .ok t → Reachable L t
  | beta (s : State K) (b : K) (t : State K) :
      Reachable L s → set_beta s b = .ok t → Reachable L t
  | samples_per_symbol (s : State K) (sps : K) (t : State K) :
      Reachable L s → set_samples_per_symbol L s sps = .ok t → Reachable L t
  | rolloff (s : State K) (r : K) (t : State K) :
      Reachable L s → set_rolloff L s r = .ok t → Reachable L t
  | filter_size (s : State K) (n : Int) (t : State K) :
      Reachable L s → set_filter_size L s n = .ok t → Reachable L t
  | work (s : State K) (n : Int) (inp : Int → gr_complex K) (o : OutputItems K) :
      Reachable L s → Reachable L (work L s n inp o).state

/-- The object at the point where the constructor, all checks passed, calls
`design_filter`. -/
def configured (L : Libm K) (raw : State K) (samps_per_sym rolloff : K) (filter_size : Int)
    (bandwidth : K) : State K :=
  update_gains
    { fresh raw with d_sps := samps_per_sym, d_rolloff := rolloff,
                     d_filter_size := filter_size, d_loop_bw := bandwidth,
                     d_max_freq := M_TWOPI L * (2 / samps_per_sym),
                     d_min_freq := -M_TWOPI L * (2 / samps_per_sym),
                     d_damping := L.sqrt 2 / 2 }

/-- Value of the local `error` in iteration `i` of the sample loop of `work`, entered with
object and buffers `st`. -/
def loop_error (L : Libm K) (inp : Int → gr_complex K) (i : Nat)
    (st : State K × OutputItems K) : K :=
  let out := Function.update st.2.out ((i : Int) + st.1.d_filter_size - 1)
    (inp i * gr_expj L st.1.d_phase)
  (dot st.1.d_taps_lower out i st.1.d_filter_size.toNat).norm -
    (dot st.1.d_taps_upper out i st.1.d_filter_size.toNat).norm

/-- The facts about `M_PI`, sine and cosine that the proofs rely on. -/
structure Libm.Lawful (L : Libm K) : Prop where
  pi_pos : 0 < L.pi
  cos_zero : L.cos 0 = 1
  sin_zero : L.sin 0 = 0
  cos_neg : ∀ x, L.cos (-x) = L.cos x
  sin_neg : ∀ x, L.sin (-x) = -L.sin x

/-- The sample `z` is a real multiple of the sample `c`. -/
def IsRealMultiple (c z : gr_complex K) : Prop := ∃ r : K, z = gr_complex.scale r c

/-- Spec-side correlation: the sum over k in [0, F) of taps[k] * window[i + k], taken by
components. -/
def correlate (taps : List (gr_complex K)) (window : Int → gr_complex K) (i : Int) (F : Nat) :
    gr_complex K :=
  ⟨Finset.sum (Finset.range F) (fun k => (taps.getD k 0 * window (i + k)).re),
   Finset.sum (Finset.range F) (fun k => (taps.getD k 0 * window (i + k)).im)⟩

/-- Spec-side discriminator for sample `i`: |out_lower|^2 - |out_upper|^2, the two outputs
being the correlations of the tap vectors with the corrected buffer that holds the rotated
sample `i` at index i + filter_size - 1. -/
def discriminator (L : Libm K) (inp : Int → gr_complex K) (i : Nat)
    (st : State K × OutputItems K) : K :=
  let corrected := Function.update st.2.out ((i : Int) + st.1.d_filter_size - 1)
    (inp i * gr_expj L st.1.d_phase)
  (correlate st.1.d_taps_lower corrected i st.1.d_filter_size.toNat).norm -
    (correlate st.1.d_taps_upper corrected i st.1.d_filter_size.toNat).norm

/-- Spec-side saturating clamp of `x` into [lo, hi]. -/
def clamp (x lo hi : K) : K := max lo (min x hi)

/-- Spec-side phase wrap: subtract 2π once above π, add 2π once below -π. -/
def wrap (L : Libm K) (p : K) : K :=
  if p > L.pi then p - 2 * L.pi else if p < -L.pi then p + 2 * L.pi else p

/-- States of a frozen loop: built with bandwidth 0, then driven by work calls and setter
calls among which set_loop_bandwidth, set_alpha and set_beta are only called with 0, every
filter design on the way having a normaliser that is not zero. -/
inductive FrozenReachable (L : Libm K) : State K → Prop where
  | construct (raw : State K) (sps rolloff : K) (filter_size : Int) (s : State K) :
      gr_fll_band_edge_cc L raw sps rolloff filter_size 0 = .ok s → FrozenReachable L s
  | loop_bandwidth (s t : State K) :
      FrozenReachable L s → set_loop_bandwidth s 0 = .ok t → FrozenReachable L t
  | damping_factor (s : State K) (df : K) (t : State K) :
      FrozenReachable L s → set_damping_factor s df = .ok t → FrozenReachable L t
  | alpha (s t : State K) :
      FrozenReachable L s → set_alpha s 0 = .ok t → FrozenReachable L t
  | beta (s t : State K) :
      FrozenReachable L s → set_beta s 0 = .ok t → FrozenReachable L t
  | samples_per_symbol (s : State K) (sps : K) (t : State K) :
      FrozenReachable L s → set_samples_per_symbol L s sps = .ok t → FrozenReachable L t
  | rolloff (s : State K) (r : K) (t : State K) :
      FrozenReachable L s → set_rolloff L s r = .ok t → FrozenReachable L t
  | filter_size (s : State K) (n : Int) (t : State K) :
      FrozenReachable L s → set_filter_size L s n = .ok t → FrozenReachable L t
  | work (s : State K) (n : Int) (inp : Int → gr_complex K) (o : OutputItems K) :
      FrozenReachable L s → FrozenReachable L (work L s n inp o).state

/-- The object carried by an outcome. -/
def Outcome.state {σ : Type} : Outcome σ → σ
  | .ok s => s
  | .out_of_range s => s
  | .non_finite s => s

/-- Whether the call returned normally, that is, without throwing. -/
def Outcome.isOk {σ : Type} : Outcome σ → Bool
  | .ok _ => true
  | .out_of_range _ => false
  | .non_finite _ => true

/-- Whether the call returned with every member of the object a number. -/
def Outcome.isExact {σ : Type} : Outcome σ → Bool
  | .ok _ => true
  | .out_of_range _ => false
  | .non_finite _ => false

/-- A call to one of the three setters that redesign the filters. -/
inductive DesignCall (K : Type) where
  | samples_per_symbol (sps : K)
  | rolloff (r : K)
  | filter_size (n : Int)

/-- Perform one redesigning setter call. -/
def DesignCall.apply (L : Libm K) (s : State K) : DesignCall K → Outcome (State K)
  | .samples_per_symbol sps => set_samples_per_symbol L s sps
  | .rolloff r => set_rolloff L s r
  | .filter_size n => set_filter_size L s n

/-- Perform setter calls one after the other, each on the object the previous one left; the
first throw ends the sequence, and otherwise the outcome is that of the last call. -/
def apply_calls (L : Libm K) : State K → List (DesignCall K) → Outcome (State K)
  | s, [] => .ok s
  | s, [c] => c.apply L s
  | s, c :: d :: cs =>
    match c.apply L s with
    | .ok t => apply_calls L t (d :: cs)
    | .non_finite t => apply_calls L t (d :: cs)
    | .out_of_range e => .out_of_range e

/-- States the block can be driven into by the constructor, setter calls that return and
`work` calls, whether or not a filter design on the way had a zero normaliser. After such a
design the tap entries of the state, and after the next processed sample its loop values,
are placeholders for values that are no numbers; its sizes, its configuration and its flag
are those of the object. -/
inductive Driven (L : Libm K) : State K → Prop where
  | construct (raw : State K) (sps rolloff : K) (filter_size : Int) (bw : K) :
      (gr_fll_band_edge_cc L raw sps rolloff filter_size bw).isOk = true →
      Driven L (gr_fll_band_edge_cc L raw sps rolloff filter_size bw).state
  | loop_bandwidth (s : State K) (bw : K) :
      Driven L s → (set_loop_bandwidth s bw).isOk = true →
      Driven L (set_loop_bandwidth s bw).state
  | damping_factor (s : State K) (df : K) :
      Driven L s → (set_damping_factor s df).isOk = true →
      Driven L (set_damping_factor s df).state
  | alpha (s : State K) (a : K) :
      Driven L s → (set_alpha s a).isOk = true → Driven L (set_alpha s a).state
  | beta (s : State K) (b : K) :
      Driven L s → (set_beta s b).isOk = true → Driven L (set_beta s b).state
  | samples_per_symbol (s : State K) (sps : K) :
      Driven L s → (set_samples_per_symbol L s sps).isOk = true →
      Driven L (set_samples_per_symbol L s sps).state
  | rolloff (s : State K) (r : K) :
      Driven L s → (set_rolloff L s r).isOk = true → Driven L (set_rolloff L s r).state
  | filter_size (s : State K) (n : Int) :
      Driven L s → (set_filter_size L s n).isOk = true →
      Driven L (set_filter_size L s n).state
  | work (s : State K) (n : Int) (inp : Int → gr_complex K) (o : OutputItems K) :
      Driven L s → Driven L (work L s n inp o).state

/-- Zero-filled memory, used as the indeterminate content of a new object in examples. -/
def raw0 : State K :=
  { d_sps := 0, d_rolloff := 0, d_filter_size := 0, d_loop_bw := 0, d_damping := 0,
    d_alpha := 0, d_beta := 0, d_max_freq := 0, d_min_freq := 0, d_taps_lower := [],
    d_taps_upper := [], d_updated := false, d_freq := 0, d_phase := 0, d_history := 0 }

/-- Zero-filled output buffers with `size` output ports. -/
def items0 (size : Nat) : OutputItems K :=
  { size := size, out := fun _ => 0, frq := fun _ => 0, phs := fun _ => 0, err := fun _ => 0 }

/-- Round to nearest integer, ties to even: `rint` in the default rounding mode. -/
def rintHalfEven [FloorRing K] (x : K) : Int :=
  let f : Int := Int.floor x
  if x - (f : K) < 1 / 2 then f
  else if 1 / 2 < x - (f : K) then f + 1
  else if f % 2 = 0 then f else f + 1

end Block

/-- The primitives over the real numbers. -/
noncomputable def realLibm : Libm ℝ :=
  { pi := Real.pi, sin := Real.sin, cos := Real.cos, sqrt := Real.sqrt, rint := rintHalfEven }

/-- Input of the phase scenario: sample 0 is 4, every other sample is 4j. -/
def phase_input : Int → gr_complex ℝ := fun i => if i = 0 then ⟨4, 0⟩ else ⟨0, 4⟩

/-- Start of the phase scenario: build the block with sps 2, rolloff 0, 2 taps and
bandwidth 0, call set_alpha(1), and call work once (the skipped call). -/
noncomputable def phase_start : State ℝ :=
  (work realLibm (set_alpha (gr_fll_band_edge_cc realLibm raw0 2 0 2 0).state 1).state
    2 phase_input (items0 1)).state

/-- The phase scenario: from `phase_start`, call work for 2 items on `phase_input` with
zero-filled output buffers. -/
noncomputable def phase_scenario : State ℝ :=
  (work realLibm phase_start 2 phase_input (items0 1)).state

/-- Input that agrees with `phase_input` on the first two samples and is 7 + 7j after
them. -/
def phase_input_tail : Int → gr_complex ℝ := fun i => if i < 2 then phase_input i else ⟨7, 7⟩

/-! ## Theorems -/

section Plain

variable {K : Type}

@[simp] theorem gr_expj_re (L : Libm K) (x : K) : (gr_expj L x).re = L.cos x := rfl

@[simp] theorem gr_expj_im (L : Libm K) (x : K) : (gr_expj L x).im = L.sin x := rfl

theorem gr_complex.eq_iff (a b : gr_complex K) : a = b ↔ a.re = b.re ∧ a.im = b.im := by
  constructor
  · intro h; rw [h]; exact ⟨rfl, rfl⟩
  · intro h
    cases a; cases b
    simp only at h
    rw [h.1, h.2]

end Plain

section Theorems

variable {K : Type} [LinearOrderedField K]

theorem Outcome.state_eq_of_ok {σ : Type} (o : Outcome σ) (t : σ) (h : o = .ok t) :
    o.state = t := by
  rw [h]
  rfl

theorem Outcome.isOk_of_ok {σ : Type} (o : Outcome σ) (t : σ) (h : o = .ok t) :
    o.isOk = true := by
  rw [h]
  rfl

theorem Outcome.eq_ok_of_isExact {σ : Type} (o : Outcome σ) (h : o.isExact = true) :
    o = .ok o.state := by
  cases o with
  | ok s => rfl
  | out_of_range s => cases h
  | non_finite s => cases h

/-- design_filter does not throw. -/
theorem design_filter_isOk (L : Libm K) (s : State K) (sps rolloff : K) (n : Int) :
    (design_filter L s sps rolloff n).isOk = true := by
  simp only [design_filter]
  split <;> rfl

/-- What design_filter leaves alone, and what it sets besides the taps. -/
theorem design_filter_fields (L : Libm K) (s : State K) (sps rolloff : K) (n : Int) :
    (design_filter L s sps rolloff n).state.d_sps = s.d_sps ∧
    (design_filter L s sps rolloff n).state.d_rolloff = s.d_rolloff ∧
    (design_filter L s sps rolloff n).state.d_filter_size = s.d_filter_size ∧
    (design_filter L s sps rolloff n).state.d_loop_bw = s.d_loop_bw ∧
    (design_filter L s sps rolloff n).state.d_damping = s.d_damping ∧
    (design_filter L s sps rolloff n).state.d_alpha = s.d_alpha ∧
    (design_filter L s sps rolloff n).state.d_beta = s.d_beta ∧
    (design_filter L s sps rolloff n).state.d_max_freq = s.d_max_freq ∧
    (design_filter L s sps rolloff n).state.d_min_freq = s.d_min_freq ∧
    (design_filter L s sps rolloff n).state.d_freq = s.d_freq ∧
    (design_filter L s sps rolloff n).state.d_phase = s.d_phase ∧
    (design_filter L s sps rolloff n).state.d_history = n + 1 := by
  simp only [design_filter]
  split <;> exact ⟨rfl, rfl, rfl, rfl, rfl, rfl, rfl, rfl, rfl, rfl, rfl, rfl⟩

theorem design_filter_updated (L : Libm K) (s : State K) (sps rolloff : K) (n : Int) :
    (design_filter L s sps rolloff n).state.d_updated = true := by
  simp only [design_filter]
  split <;> rfl

theorem DesignCall.apply_updated (L : Libm K) (s : State K) (c : DesignCall K)
    (h : (c.apply L s).isOk = true) : (c.apply L s).state.d_updated = true := by
  cases c with
  | samples_per_symbol sps =>
    simp only [DesignCall.apply, set_samples_per_symbol] at h ⊢
    split
    · rename_i hc
      rw [if_pos hc] at h
      cases h
    · exact design_filter_updated L _ _ _ _
  | rolloff r =>
    simp only [DesignCall.apply, set_rolloff] at h ⊢
    split
    · rename_i hc
      rw [if_pos hc] at h
      cases h
    · exact design_filter_updated L _ _ _ _
  | filter_size n =>
    simp only [DesignCall.apply, set_filter_size] at h ⊢
    split
    · rename_i hc
      rw [if_pos hc] at h
      cases h
    · exact design_filter_updated L _ _ _ _

theorem apply_calls_updated (L : Libm K) (calls : List (DesignCall K)) :
    ∀ s : State K, calls ≠ [] → (apply_calls L s calls).isOk = true →
      (apply_calls L s calls).state.d_updated = true := by
  induction calls with
  | nil => intro s hne; exact absurd rfl hne
  | cons c cs ih =>
    intro s _ h
    cases cs with
    | nil =>
      simp only [apply_calls] at h ⊢
      exact DesignCall.apply_updated L s c h
    | cons d ds =>
      simp only [apply_calls] at h ⊢
      cases hc : c.apply L s with
      | out_of_range e =>
        rw [hc] at h
        cases h
      | ok u =>
        rw [hc] at h
        exact ih u (List.cons_ne_nil d ds) h
      | non_finite u =>
        rw [hc] at h
        exact ih u (List.cons_ne_nil d ds) h

/-- C1: after any non-empty run of calls to set_samples_per_symbol, set_rolloff or
set_filter_size that all return (from any state, each call acting on the object the
previous one left), the next work call returns 0 whatever count is requested, and the work
call after that returns exactly its requested count. -/
theorem work_after_redesign (L : Libm K) (s : State K) (calls : List (DesignCall K))
    (hne : calls ≠ []) (hok : (apply_calls L s calls).isOk = true)
    (n1 n2 : Int) (in1 in2 : Int → gr_complex K) (o1 o2 : OutputItems K) :
    (work L (apply_calls L s calls).state n1 in1 o1).ret = 0 ∧
      (work L (work L (apply_calls L s calls).state n1 in1 o1).state n2 in2 o2).ret
        = n2 := by
  have hu : (apply_calls L s calls).state.d_updated = true :=
    apply_calls_updated L calls s hne hok
  simp [work, hu]

/-- With valid arguments the constructor returns, and leaves the object that design_filter
left for the configured object, with both loop values set to 0. -/
theorem construct_state (L : Libm K) (raw : State K) (sps ro : K) (F : Int) (bw : K)
    (h1 : 0 < sps) (h2 : 0 ≤ ro) (h3 : ro ≤ 1) (h4 : 0 < F) (h5 : 0 ≤ bw) :
    (gr_fll_band_edge_cc L raw sps ro F bw).isOk = true ∧
    (gr_fll_band_edge_cc L raw sps ro F bw).state =
      { (design_filter L (configured L raw sps ro F bw) sps ro F).state
        with d_freq := 0, d_phase := 0 } ∧
    (gr_fll_band_edge_cc L raw sps ro F bw).isExact =
      (design_filter L (configured L raw sps ro F bw) sps ro F).isExact := by
  have e1 : ¬ sps ≤ 0 := not_le.mpr h1
  have e2 : ¬ (ro < 0 ∨ ro > 1) := by
    rintro (h | h)
    · exact absurd h (not_lt.mpr h2)
    · exact absurd h (not_lt.mpr h3)
  have e3 : ¬ F ≤ 0 := not_le.mpr h4
  have e4 : ¬ bw < 0 := not_lt.mpr h5
  have hok := design_filter_isOk L (configured L raw sps ro F bw) sps ro F
  have hc : gr_fll_band_edge_cc L raw sps ro F bw =
      (match design_filter L (configured L raw sps ro F bw) sps ro F with
        | .ok s9 => .ok { s9 with d_freq := 0, d_phase := 0 }
        | .non_finite s9 => .non_finite { s9 with d_freq := 0, d_phase := 0 }
        | .out_of_range e => .out_of_range e) := by
    simp only [gr_fll_band_edge_cc, set_loop_bandwidth, if_neg e1, if_neg e2, if_neg e3,
      if_neg e4]
    rfl
  rw [hc]
  cases hd : design_filter L (configured L raw sps ro F bw) sps ro F with
  | ok d => exact ⟨rfl, rfl, rfl⟩
  | non_finite d => exact ⟨rfl, rfl, rfl⟩
  | out_of_range e =>
    rw [hd] at hok
    cases hok

theorem construct_isOk (L : Libm K) (raw : State K) (sps ro : K) (F : Int) (bw : K)
    (h1 : 0 < sps) (h2 : 0 ≤ ro) (h3 : ro ≤ 1) (h4 : 0 < F) (h5 : 0 ≤ bw) :
    (gr_fll_band_edge_cc L raw sps ro F bw).isOk = true :=
  (construct_state L raw sps ro F bw h1 h2 h3 h4 h5).1

theorem construct_state_updated (L : Libm K) (raw : State K) (sps ro : K) (F : Int) (bw : K)
    (h1 : 0 < sps) (h2 : 0 ≤ ro) (h3 : ro ≤ 1) (h4 : 0 < F) (h5 : 0 ≤ bw) :
    (gr_fll_band_edge_cc L raw sps ro F bw).state.d_updated = true := by
  rw [(construct_state L raw sps ro F bw h1 h2 h3 h4 h5).2.1]
  exact design_filter_updated L _ _ _ _

/-- With a normaliser that is not zero the second loop of design_filter completes. -/
theorem spin_loop_some (L : Libm K) (sps ro : K) (F : Int) (bb : List K) (power : K)
    (hp : power ≠ 0) (N : Int) (lower upper : List (gr_complex K)) (m : Nat) :
    ∃ acc, spin_loop L sps ro F bb power N lower upper m = some acc := by
  induction m with
  | zero => exact ⟨(lower, upper), rfl⟩
  | succ m ih =>
    obtain ⟨prev, hprev⟩ := ih
    simp only [spin_loop, hprev, if_neg hp]
    exact ⟨_, rfl⟩

/-- With a normaliser that is not zero the design consists of numbers. -/
theorem design_filter_isExact (L : Libm K) (s : State K) (sps ro : K) (F : Int)
    (hp : design_power L sps ro F ≠ 0) : (design_filter L s sps ro F).isExact = true := by
  have hp2 : (bb_loop L sps ro (L.rint ((F : K) / sps)) F.toNat).2 ≠ 0 := hp
  obtain ⟨acc, hacc⟩ := spin_loop_some L sps ro F
    (bb_loop L sps ro (L.rint ((F : K) / sps)) F.toNat).1
    (bb_loop L sps ro (L.rint ((F : K) / sps)) F.toNat).2 hp2
    (Int.tdiv (((bb_loop L sps ro (L.rint ((F : K) / sps)) F.toNat).1.length : Int) - 1) 2)
    (resize s.d_taps_lower F.toNat) (resize s.d_taps_upper F.toNat) F.toNat
  simp only [design_filter, hacc]
  rfl

/-- With valid arguments and a normaliser that is not zero the constructor returns an object
of numbers. -/
theorem construct_exact (L : Libm K) (raw : State K) (sps ro : K) (F : Int) (bw : K)
    (h1 : 0 < sps) (h2 : 0 ≤ ro) (h3 : ro ≤ 1) (h4 : 0 < F) (h5 : 0 ≤ bw)
    (hpw : design_power L sps ro F ≠ 0) :
    gr_fll_band_edge_cc L raw sps ro F bw =
      .ok (gr_fll_band_edge_cc L raw sps ro F bw).state := by
  apply Outcome.eq_ok_of_isExact
  rw [(construct_state L raw sps ro F bw h1 h2 h3 h4 h5).2.2]
  exact design_filter_isExact L _ sps ro F hpw

/-- The normaliser after `n` iterations of the first loop is the sum of the prototype taps. -/
theorem bb_loop_power (L : Libm K) (sps ro : K) (M : Int) (n : Nat) :
    (bb_loop L sps ro M n).2 = ∑ i ∈ Finset.range n,
      (sinc L (ro * (-(M : K) + (i : K) * 2 / sps) - 1 / 2) +
       sinc L (ro * (-(M : K) + (i : K) * 2 / sps) + 1 / 2)) := by
  induction n with
  | zero => simp [bb_loop]
  | succ m ih =>
    rw [Finset.sum_range_succ, ← ih]
    rfl

/-- Away from x = ±1/2, a prototype tap sinc(x - 1/2) + sinc(x + 1/2) is
cos(πx) / (π (1/4 - x²)). -/
theorem sinc_pair (x : ℝ) (h1 : x ≠ 1 / 2) (h2 : x ≠ -(1 / 2)) :
    sinc realLibm (x - 1 / 2) + sinc realLibm (x + 1 / 2) =
      Real.cos (Real.pi * x) / (Real.pi * (1 / 4 - x ^ 2)) := by
  have hpi := Real.pi_ne_zero
  have a1 : x - 1 / 2 ≠ 0 := sub_ne_zero.mpr h1
  have a2 : x + 1 / 2 ≠ 0 := by
    intro h
    apply h2
    linarith
  have e1 : Real.pi * (x - 1 / 2) = Real.pi * x - Real.pi / 2 := by ring
  have e2 : Real.pi * (x + 1 / 2) = Real.pi * x + Real.pi / 2 := by ring
  have d : (1 / 4 - x ^ 2) ≠ 0 := by
    have : (1 / 4 - x ^ 2) = -((x - 1 / 2) * (x + 1 / 2)) := by ring
    rw [this]
    exact neg_ne_zero.mpr (mul_ne_zero a1 a2)
  have s1 : Real.sin (Real.pi * (x - 1 / 2)) = -Real.cos (Real.pi * x) := by
    rw [e1, Real.sin_sub_pi_div_two]
  have s2 : Real.sin (Real.pi * (x + 1 / 2)) = Real.cos (Real.pi * x) := by
    rw [e2, Real.sin_add_pi_div_two]
  have b1 : Real.pi * (x - 1 / 2) ≠ 0 := mul_ne_zero hpi a1
  have b2 : Real.pi * (x + 1 / 2) ≠ 0 := mul_ne_zero hpi a2
  have b3 : Real.pi * (1 / 4 - x ^ 2) ≠ 0 := mul_ne_zero hpi d
  simp only [sinc, realLibm, if_neg a1, if_neg a2, s1, s2]
  rw [div_add_div _ _ b1 b2, div_eq_div_iff (mul_ne_zero b1 b2) b3]
  ring

/-- A lower bound of a prototype tap that is free of the cosine: 4/π at x = 0, 0 for
|x| ≤ 3/2, and -1 / (π (x² - 1/4)) beyond. -/
theorem sinc_pair_lower (x : ℝ) (h1 : x ≠ 1 / 2) (h2 : x ≠ -(1 / 2)) :
    (if x = 0 then 4 else if x ^ 2 ≤ 9 / 4 then 0 else -(1 / (x ^ 2 - 1 / 4))) / Real.pi ≤
      sinc realLibm (x - 1 / 2) + sinc realLibm (x + 1 / 2) := by
  rw [sinc_pair x h1 h2]
  have hpi := Real.pi_pos
  split_ifs with c0 c1
  · subst c0
    apply le_of_eq
    simp only [mul_zero, Real.cos_zero]
    field_simp
  · rw [zero_div]
    have habs : Real.cos (Real.pi * x) = Real.cos (Real.pi * |x|) := by
      rw [← Real.cos_abs (Real.pi * x), abs_mul, abs_of_pos hpi]
    have hx2 : x ^ 2 = |x| ^ 2 := (sq_abs x).symm
    have ha0 : 0 ≤ |x| := abs_nonneg x
    have hah : |x| ≠ 1 / 2 := by
      intro h
      rcases abs_eq (by norm_num : (0 : ℝ) ≤ 1 / 2) |>.mp h with h | h
      · exact h1 h
      · exact h2 h
    rw [habs, hx2]
    rw [hx2] at c1
    rcases lt_or_gt_of_ne hah with hlt | hgt
    · have hc : 0 < Real.cos (Real.pi * |x|) :=
        Real.cos_pos_of_mem_Ioo ⟨by nlinarith, by nlinarith⟩
      have hd : 0 < 1 / 4 - |x| ^ 2 := by nlinarith
      exact div_nonneg hc.le (mul_nonneg hpi.le hd.le)
    · have h32 : |x| ≤ 3 / 2 := by nlinarith
      have hc : Real.cos (Real.pi * |x|) ≤ 0 :=
        Real.cos_nonpos_of_pi_div_two_le_of_le (by nlinarith) (by nlinarith)
      have hd : 1 / 4 - |x| ^ 2 < 0 := by nlinarith
      exact div_nonneg_of_nonpos hc (mul_nonpos_of_nonneg_of_nonpos hpi.le hd.le)
  · have hD : 0 < x ^ 2 - 1 / 4 := by
      have := not_le.mp c1
      linarith
    have hc := Real.cos_le_one (Real.pi * x)
    rw [show Real.pi * (1 / 4 - x ^ 2) = -(Real.pi * (x ^ 2 - 1 / 4)) by ring, div_neg,
      neg_div, neg_le_neg_iff, div_div, mul_comm (x ^ 2 - 1 / 4) Real.pi]
    exact (div_le_div_iff_of_pos_right (mul_pos hpi hD)).mpr hc

theorem rint_32_div_4 : realLibm.rint (((32 : Int) : ℝ) / 4) = 8 := by
  have e : (((32 : Int) : ℝ) / 4) = ((8 : Int) : ℝ) := by norm_num
  simp only [realLibm, rintHalfEven]
  rw [e, Int.floor_intCast]
  norm_num

/-- Over the reals, the design for sps 4, rolloff 0.35 and 32 taps has a positive normaliser:
the tap at the centre is 4/π, the taps with |x| ≤ 3/2 are not negative, and the other
fifteen together are above -3.86/π. -/
theorem design_power_4_35_32 : design_power realLibm 4 (35 / 100) 32 ≠ 0 := by
  have e : (32 : Int).toNat = 32 := rfl
  have hpos : 0 < design_power realLibm 4 (35 / 100) 32 := by
    simp only [design_power, rint_32_div_4, e, bb_loop_power]
    have hb : ∀ i ∈ Finset.range 32,
        (if (35 / 100 : ℝ) * (-((8 : Int) : ℝ) + (i : ℝ) * 2 / 4) = 0 then 4
          else if ((35 / 100 : ℝ) * (-((8 : Int) : ℝ) + (i : ℝ) * 2 / 4)) ^ 2 ≤ 9 / 4 then 0
          else -(1 / (((35 / 100 : ℝ) * (-((8 : Int) : ℝ) + (i : ℝ) * 2 / 4)) ^ 2 - 1 / 4)))
          / Real.pi ≤
        sinc realLibm ((35 / 100 : ℝ) * (-((8 : Int) : ℝ) + (i : ℝ) * 2 / 4) - 1 / 2) +
          sinc realLibm ((35 / 100 : ℝ) * (-((8 : Int) : ℝ) + (i : ℝ) * 2 / 4) + 1 / 2) := by
      intro i hi
      rw [Finset.mem_range] at hi
      apply sinc_pair_lower
      · interval_cases i <;> norm_num
      · interval_cases i <;> norm_num
    refine lt_of_lt_of_le ?_ (Finset.sum_le_sum hb)
    rw [← Finset.sum_div]
    apply div_pos _ Real.pi_pos
    simp only [Finset.sum_range_succ, Finset.sum_range_zero]
    norm_num
  exact ne_of_gt hpos

/-- C1, at a concrete input: a block built for sps 4, rolloff 0.35, 32 taps, then
set_filter_size(16) and set_rolloff(1/2). -/
theorem work_after_redesign_witness :
    ([DesignCall.filter_size 16, DesignCall.rolloff (1 / 2 : ℝ)] ≠ []) ∧
    ((work realLibm
        (apply_calls realLibm (gr_fll_band_edge_cc realLibm raw0 4 (35 / 100) 32 0).state
          [DesignCall.filter_size 16, DesignCall.rolloff (1 / 2 : ℝ)]).state
        7 (fun _ => 1) (items0 1)).ret = 0 ∧
     (work realLibm
        (work realLibm
          (apply_calls realLibm (gr_fll_band_edge_cc realLibm raw0 4 (35 / 100) 32 0).state
            [DesignCall.filter_size 16, DesignCall.rolloff (1 / 2 : ℝ)]).state
          7 (fun _ => 1) (items0 1)).state
        9 (fun _ => 1) (items0 1)).ret = 9) :=
  ⟨by simp,
   work_after_redesign realLibm _ _ (by simp)
     (by
        have h16 : ¬ ((16 : Int) ≤ 0) := by norm_num
        have hr : ¬ ((1 / 2 : ℝ) < 0 ∨ (1 / 2 : ℝ) > 1) := by norm_num
        simp only [apply_calls, DesignCall.apply, set_filter_size, set_rolloff, if_neg h16]
        have h1 := design_filter_isOk realLibm
          { (gr_fll_band_edge_cc realLibm raw0 4 (35 / 100) 32 0).state with
            d_filter_size := 16 }
          (gr_fll_band_edge_cc realLibm raw0 4 (35 / 100) 32 0).state.d_sps
          (gr_fll_band_edge_cc realLibm raw0 4 (35 / 100) 32 0).state.d_rolloff 16
        cases hd : design_filter realLibm
          { (gr_fll_band_edge_cc realLibm raw0 4 (35 / 100) 32 0).state with
            d_filter_size := 16 }
          (gr_fll_band_edge_cc realLibm raw0 4 (35 / 100) 32 0).state.d_sps
          (gr_fll_band_edge_cc realLibm raw0 4 (35 / 100) 32 0).state.d_rolloff 16 with
        | out_of_range e =>
          rw [hd] at h1
          cases h1
        | ok t =>
          simp only [if_neg hr]
          exact design_filter_isOk realLibm _ _ _ _
        | non_finite t =>
          simp only [if_neg hr]
          exact design_filter_isOk realLibm _ _ _ _)
     7 9 (fun _ => 1) (fun _ => 1) (items0 1) (items0 1)⟩

/-- C2, refuted as stated: for sps 4, rolloff 0.35, 32 taps and bandwidth 2π/100 the
constructor succeeds, the redesign flag of the new object is set, and the first work call,
asked for 5 items, returns 0 and not 5. -/
theorem construct_ready_counterexample :
    (gr_fll_band_edge_cc realLibm raw0 4 (35 / 100) 32 (2 * Real.pi / 100)).isOk = true ∧
    (gr_fll_band_edge_cc realLibm raw0 4 (35 / 100) 32 (2 * Real.pi / 100)).state.d_updated
      = true ∧
    (work realLibm
      (gr_fll_band_edge_cc realLibm raw0 4 (35 / 100) 32 (2 * Real.pi / 100)).state
      5 (fun _ => 1) (items0 1)).ret ≠ 5 := by
  have hu := construct_state_updated realLibm raw0 4 (35 / 100) 32 (2 * Real.pi / 100)
    (by norm_num) (by norm_num) (by norm_num) (by norm_num) (by positivity)
  refine ⟨construct_isOk realLibm raw0 4 (35 / 100) 32 (2 * Real.pi / 100)
    (by norm_num) (by norm_num) (by norm_num) (by norm_num) (by positivity), hu, ?_⟩
  simp [work, hu]

/-- C2 (amended): a construction with valid arguments succeeds and leaves the redesign flag
set (the constructor runs design_filter); the first work call therefore returns 0 and clears
the flag, and the second work call returns its requested count. -/
theorem construct_pending (L : Libm K) (raw : State K) (sps ro : K) (F : Int) (bw : K)
    (h1 : 0 < sps) (h2 : 0 ≤ ro) (h3 : ro ≤ 1) (h4 : 0 < F) (h5 : 0 ≤ bw)
    (n1 n2 : Int) (in1 in2 : Int → gr_complex K) (o1 o2 : OutputItems K) :
    ∃ s, (gr_fll_band_edge_cc L raw sps ro F bw).isOk = true ∧
      (gr_fll_band_edge_cc L raw sps ro F bw).state = s ∧ s.d_updated = true ∧
      (work L s n1 in1 o1).ret = 0 ∧ (work L s n1 in1 o1).state.d_updated = false ∧
      (work L (work L s n1 in1 o1).state n2 in2 o2).ret = n2 := by
  have hu := construct_state_updated L raw sps ro F bw h1 h2 h3 h4 h5
  refine ⟨_, construct_isOk L raw sps ro F bw h1 h2 h3 h4 h5, rfl, hu, ?_, ?_, ?_⟩
  · simp [work, hu]
  · simp [work, hu]
  · simp [work, hu]

/-- C2 (amended), at sps 4, rolloff 0.35, 32 taps, bandwidth 2π/100. -/
theorem construct_pending_witness :
    ∃ s, (gr_fll_band_edge_cc realLibm raw0 4 (35 / 100) 32 (2 * Real.pi / 100)).isOk
        = true ∧
      (gr_fll_band_edge_cc realLibm raw0 4 (35 / 100) 32 (2 * Real.pi / 100)).state = s ∧
      s.d_updated = true ∧
      (work realLibm s 5 (fun _ => 1) (items0 4)).ret = 0 ∧
      (work realLibm s 5 (fun _ => 1) (items0 4)).state.d_updated = false ∧
      (work realLibm (work realLibm s 5 (fun _ => 1) (items0 4)).state 6 (fun _ => 1)
        (items0 4)).ret = 6 :=
  construct_pending realLibm raw0 4 (35 / 100) 32 (2 * Real.pi / 100)
    (by norm_num) (by norm_num) (by norm_num) (by norm_num) (by positivity)
    5 6 (fun _ => 1) (fun _ => 1) (items0 4) (items0 4)

/-- C6: each setter throws exactly on the arguments it documents as invalid (negative
bandwidth; damping, alpha, beta or rolloff outside [0,1]; non-positive sps or filter size),
and when it throws the object it leaves behind is the object it was given, field by field;
on every other argument it returns normally. -/
theorem setters_atomic (L : Libm K) (s : State K) (x : K) (n : Int) :
    (((set_loop_bandwidth s x).isOk = false ↔ x < 0) ∧
      ((set_loop_bandwidth s x).isOk = false → set_loop_bandwidth s x = .out_of_range s)) ∧
    (((set_damping_factor s x).isOk = false ↔ (x < 0 ∨ x > 1)) ∧
      ((set_damping_factor s x).isOk = false → set_damping_factor s x = .out_of_range s)) ∧
    (((set_alpha s x).isOk = false ↔ (x < 0 ∨ x > 1)) ∧
      ((set_alpha s x).isOk = false → set_alpha s x = .out_of_range s)) ∧
    (((set_beta s x).isOk = false ↔ (x < 0 ∨ x > 1)) ∧
      ((set_beta s x).isOk = false → set_beta s x = .out_of_range s)) ∧
    (((set_samples_per_symbol L s x).isOk = false ↔ x ≤ 0) ∧
      ((set_samples_per_symbol L s x).isOk = false →
        set_samples_per_symbol L s x = .out_of_range s)) ∧
    (((set_rolloff L s x).isOk = false ↔ (x < 0 ∨ x > 1)) ∧
      ((set_rolloff L s x).isOk = false → set_rolloff L s x = .out_of_range s)) ∧
    (((set_filter_size L s n).isOk = false ↔ n ≤ 0) ∧
      ((set_filter_size L s n).isOk = false → set_filter_size L s n = .out_of_range s)) := by
  refine ⟨⟨?_, ?_⟩, ⟨?_, ?_⟩, ⟨?_, ?_⟩, ⟨?_, ?_⟩, ⟨?_, ?_⟩, ⟨?_, ?_⟩, ⟨?_, ?_⟩⟩
  · unfold set_loop_bandwidth; split <;> simp_all [Outcome.isOk]
  · unfold set_loop_bandwidth; split <;> simp_all [Outcome.isOk]
  · unfold set_damping_factor; split <;> simp_all [Outcome.isOk]
  · unfold set_damping_factor; split <;> simp_all [Outcome.isOk]
  · unfold set_alpha; split <;> simp_all [Outcome.isOk]
  · unfold set_alpha; split <;> simp_all [Outcome.isOk]
  · unfold set_beta; split <;> simp_all [Outcome.isOk]
  · unfold set_beta; split <;> simp_all [Outcome.isOk]
  · unfold set_samples_per_symbol
    split
    · simp_all [Outcome.isOk]
    · simp only [design_filter_isOk]
      simp_all
  · unfold set_samples_per_symbol
    split
    · simp_all [Outcome.isOk]
    · simp only [design_filter_isOk]
      simp_all
  · unfold set_rolloff
    split
    · simp_all [Outcome.isOk]
    · simp only [design_filter_isOk]
      simp_all
  · unfold set_rolloff
    split
    · simp_all [Outcome.isOk]
    · simp only [design_filter_isOk]
      simp_all
  · unfold set_filter_size
    split
    · simp_all [Outcome.isOk]
    · simp only [design_filter_isOk]
      simp_all
  · unfold set_filter_size
    split
    · simp_all [Outcome.isOk]
    · simp only [design_filter_isOk]
      simp_all

theorem construct_isOk_false_iff (L : Libm K) (raw : State K) (sps ro : K) (F : Int)
    (bw : K) :
    (gr_fll_band_edge_cc L raw sps ro F bw).isOk = false ↔
      (sps ≤ 0 ∨ ro < 0 ∨ ro > 1 ∨ F ≤ 0 ∨ bw < 0) := by
  by_cases c1 : sps ≤ 0
  · simp [gr_fll_band_edge_cc, c1, Outcome.isOk]
  · by_cases c2 : ro < 0 ∨ ro > 1
    · rcases c2 with c2 | c2 <;> simp [gr_fll_band_edge_cc, c1, c2, Outcome.isOk]
    · by_cases c3 : F ≤ 0
      · simp [gr_fll_band_edge_cc, c1, c2, c3, Outcome.isOk]
      · by_cases c4 : bw < 0
        · simp [gr_fll_band_edge_cc, c1, c2, c3, c4, Outcome.isOk]
        · have c2a : ¬ ro < 0 := fun h => c2 (Or.inl h)
          have c2b : ¬ ro > 1 := fun h => c2 (Or.inr h)
          have hok := construct_isOk L raw sps ro F bw (not_le.mp c1) (not_lt.mp c2a)
            (not_lt.mp c2b) (not_le.mp c3) (not_lt.mp c4)
          rw [hok]
          simp [c1, c2a, c2b, c3, c4]

theorem construct_ok_valid (L : Libm K) (raw : State K) (sps ro : K) (F : Int) (bw : K)
    (s : State K) (h : gr_fll_band_edge_cc L raw sps ro F bw = .ok s) :
    0 < sps ∧ 0 ≤ ro ∧ ro ≤ 1 ∧ 0 < F ∧ 0 ≤ bw := by
  have hn : ¬ (sps ≤ 0 ∨ ro < 0 ∨ ro > 1 ∨ F ≤ 0 ∨ bw < 0) := by
    intro hbad
    have := (construct_isOk_false_iff L raw sps ro F bw).mpr hbad
    rw [h] at this
    cases this
  refine ⟨?_, ?_, ?_, ?_, ?_⟩
  · exact not_le.mp (fun c => hn (Or.inl c))
  · exact not_lt.mp (fun c => hn (Or.inr (Or.inl c)))
  · exact not_lt.mp (fun c => hn (Or.inr (Or.inr (Or.inl c))))
  · exact not_le.mp (fun c => hn (Or.inr (Or.inr (Or.inr (Or.inl c)))))
  · exact not_lt.mp (fun c => hn (Or.inr (Or.inr (Or.inr (Or.inr c)))))

/-- C7: the constructor throws exactly when sps <= 0, rolloff < 0, rolloff > 1,
filter_size <= 0 or bandwidth < 0 - in particular for sps 0, rolloff 3/2, filter_size -1
and bandwidth -1/10 with the other arguments arbitrary - and whenever it throws, the gains,
the damping, the frequency limits, the history and the loop values of the object are still
the untouched content `raw` of the new object, both tap vectors are still empty and the
redesign flag is still false: update_gains and design_filter have not run. -/
theorem construct_fails_iff (L : Libm K) (raw : State K) (sps ro : K) (F : Int) (bw : K) :
    ((gr_fll_band_edge_cc L raw sps ro F bw).isOk = false ↔
      (sps ≤ 0 ∨ ro < 0 ∨ ro > 1 ∨ F ≤ 0 ∨ bw < 0)) ∧
    (gr_fll_band_edge_cc L raw 0 ro F bw).isOk = false ∧
    (gr_fll_band_edge_cc L raw sps (3 / 2) F bw).isOk = false ∧
    (gr_fll_band_edge_cc L raw sps ro (-1) bw).isOk = false ∧
    (gr_fll_band_edge_cc L raw sps ro F (-1 / 10)).isOk = false ∧
    ((gr_fll_band_edge_cc L raw sps ro F bw).isOk = false →
      (gr_fll_band_edge_cc L raw sps ro F bw).state.d_alpha = raw.d_alpha ∧
      (gr_fll_band_edge_cc L raw sps ro F bw).state.d_beta = raw.d_beta ∧
      (gr_fll_band_edge_cc L raw sps ro F bw).state.d_damping = raw.d_damping ∧
      (gr_fll_band_edge_cc L raw sps ro F bw).state.d_max_freq = raw.d_max_freq ∧
      (gr_fll_band_edge_cc L raw sps ro F bw).state.d_min_freq = raw.d_min_freq ∧
      (gr_fll_band_edge_cc L raw sps ro F bw).state.d_history = raw.d_history ∧
      (gr_fll_band_edge_cc L raw sps ro F bw).state.d_freq = raw.d_freq ∧
      (gr_fll_band_edge_cc L raw sps ro F bw).state.d_phase = raw.d_phase ∧
      (gr_fll_band_edge_cc L raw sps ro F bw).state.d_taps_lower = [] ∧
      (gr_fll_band_edge_cc L raw sps ro F bw).state.d_taps_upper = [] ∧
      (gr_fll_band_edge_cc L raw sps ro F bw).state.d_updated = false) := by
  have key := construct_isOk_false_iff L raw
  refine ⟨key sps ro F bw, ?_, ?_, ?_, ?_, ?_⟩
  · exact (key 0 ro F bw).mpr (Or.inl le_rfl)
  · exact (key sps (3 / 2) F bw).mpr (Or.inr (Or.inr (Or.inl (by norm_num))))
  · exact (key sps ro (-1) bw).mpr (Or.inr (Or.inr (Or.inr (Or.inl (by norm_num)))))
  · exact (key sps ro F (-1 / 10)).mpr
      (Or.inr (Or.inr (Or.inr (Or.inr (by norm_num)))))
  · intro hfail
    by_cases c1 : sps ≤ 0
    · simp [gr_fll_band_edge_cc, c1, Outcome.state, fresh]
    · by_cases c2 : ro < 0 ∨ ro > 1
      · simp [gr_fll_band_edge_cc, c1, c2, Outcome.state, fresh]
      · by_cases c3 : F ≤ 0
        · simp [gr_fll_band_edge_cc, c1, c2, c3, Outcome.state, fresh]
        · by_cases c4 : bw < 0
          · simp [gr_fll_band_edge_cc, c1, c2, c3, c4, Outcome.state, fresh]
          · exfalso
            have := (key sps ro F bw).mp hfail
            rcases this with h | h | h | h | h
            · exact c1 h
            · exact c2 (Or.inl h)
            · exact c2 (Or.inr h)
            · exact c3 h
            · exact c4 h

/-- C10: for damping >= 0 (so for every damping in [0,1]) and bandwidth >= 0, update_gains computes
alpha = 4*damping*bw/denom and beta = 4*bw^2/denom with denom = 1 + 2*damping*bw + bw^2 > 0,
and both gains are non-negative; for bandwidth 0 both gains are 0 whatever the damping. -/
theorem update_gains_nonneg (s : State K) (hd0 : 0 ≤ s.d_damping) (hbw : 0 ≤ s.d_loop_bw)
    (d : K) :
    0 < 1 + 2 * s.d_damping * s.d_loop_bw + s.d_loop_bw ^ 2 ∧
    (update_gains s).d_alpha =
      4 * s.d_damping * s.d_loop_bw / (1 + 2 * s.d_damping * s.d_loop_bw + s.d_loop_bw ^ 2) ∧
    (update_gains s).d_beta =
      4 * s.d_loop_bw ^ 2 / (1 + 2 * s.d_damping * s.d_loop_bw + s.d_loop_bw ^ 2) ∧
    0 ≤ (update_gains s).d_alpha ∧ 0 ≤ (update_gains s).d_beta ∧
    (update_gains { s with d_damping := d, d_loop_bw := 0 }).d_alpha = 0 ∧
    (update_gains { s with d_damping := d, d_loop_bw := 0 }).d_beta = 0 := by
  have hden : 0 < 1 + 2 * s.d_damping * s.d_loop_bw + s.d_loop_bw ^ 2 := by positivity
  have ha : (update_gains s).d_alpha =
      4 * s.d_damping * s.d_loop_bw /
        (1 + 2 * s.d_damping * s.d_loop_bw + s.d_loop_bw ^ 2) := by
    simp only [update_gains, pow_two]
  have hb : (update_gains s).d_beta =
      4 * s.d_loop_bw ^ 2 / (1 + 2 * s.d_damping * s.d_loop_bw + s.d_loop_bw ^ 2) := by
    simp only [update_gains, pow_two, mul_assoc]
  refine ⟨hden, ha, hb, ?_, ?_, ?_, ?_⟩
  · rw [ha]; positivity
  · rw [hb]; positivity
  · simp [update_gains]
  · simp [update_gains]

/-- C10, at damping 1/2 and bandwidth 1/10. -/
theorem update_gains_nonneg_witness :
    0 ≤ (update_gains { (raw0 : State ℚ) with d_damping := 1 / 2, d_loop_bw := 1 / 10 }).d_alpha ∧
    (update_gains { (raw0 : State ℚ) with d_damping := 1 / 2, d_loop_bw := 1 / 10 }).d_alpha
      = 20 / 111 ∧
    (update_gains { (raw0 : State ℚ) with d_damping := 1 / 2, d_loop_bw := 1 / 10 }).d_beta
      = 4 / 111 :=
  have h := update_gains_nonneg
    { (raw0 : State ℚ) with d_damping := 1 / 2, d_loop_bw := 1 / 10 }
    (by norm_num) (by norm_num) 0
  ⟨h.2.2.2.1, by rw [h.2.1]; norm_num, by rw [h.2.2.1]; norm_num⟩

theorem work_body_fst (L : Libm K) (inp : Int → gr_complex K) (i : Nat)
    (st : State K × OutputItems K) :
    (work_body L inp i st).1 =
      { st.1 with
        d_freq :=
          if st.1.d_freq + st.1.d_beta * loop_error L inp i st > st.1.d_max_freq then
            st.1.d_max_freq
          else if st.1.d_freq + st.1.d_beta * loop_error L inp i st < st.1.d_min_freq then
            st.1.d_min_freq
          else st.1.d_freq + st.1.d_beta * loop_error L inp i st,
        d_phase :=
          if st.1.d_phase + (st.1.d_freq + st.1.d_beta * loop_error L inp i st) +
              st.1.d_alpha * loop_error L inp i st > L.pi then
            st.1.d_phase + (st.1.d_freq + st.1.d_beta * loop_error L inp i st) +
              st.1.d_alpha * loop_error L inp i st - M_TWOPI L
          else if st.1.d_phase + (st.1.d_freq + st.1.d_beta * loop_error L inp i st) +
              st.1.d_alpha * loop_error L inp i st < -L.pi then
            st.1.d_phase + (st.1.d_freq + st.1.d_beta * loop_error L inp i st) +
              st.1.d_alpha * loop_error L inp i st + M_TWOPI L
          else st.1.d_phase + (st.1.d_freq + st.1.d_beta * loop_error L inp i st) +
              st.1.d_alpha * loop_error L inp i st } := by
  simp only [work_body, loop_error]
  split <;> rfl

/-- The frequency clamp of one loop iteration. -/
theorem work_body_freq_bounds (L : Libm K) (inp : Int → gr_complex K) (i : Nat)
    (st : State K × OutputItems K) (h : st.1.d_min_freq ≤ st.1.d_max_freq) :
    (work_body L inp i st).1.d_min_freq = st.1.d_min_freq ∧
    (work_body L inp i st).1.d_max_freq = st.1.d_max_freq ∧
    (work_body L inp i st).1.d_min_freq ≤ (work_body L inp i st).1.d_freq ∧
    (work_body L inp i st).1.d_freq ≤ (work_body L inp i st).1.d_max_freq := by
  rw [work_body_fst]
  refine ⟨rfl, rfl, ?_, ?_⟩
  · simp only
    split_ifs with h1 h2
    · exact h
    · exact le_rfl
    · exact not_lt.mp h2
  · simp only
    split_ifs with h1 h2
    · exact le_rfl
    · exact h
    · exact not_lt.mp h1

theorem work_loop_freq_bounds (L : Libm K) (inp : Int → gr_complex K)
    (st : State K × OutputItems K) (n : Nat)
    (h : st.1.d_min_freq ≤ st.1.d_freq ∧ st.1.d_freq ≤ st.1.d_max_freq ∧
      st.1.d_min_freq ≤ st.1.d_max_freq) :
    (work_loop L inp st n).1.d_min_freq = st.1.d_min_freq ∧
    (work_loop L inp st n).1.d_max_freq = st.1.d_max_freq ∧
    (work_loop L inp st n).1.d_min_freq ≤ (work_loop L inp st n).1.d_freq ∧
    (work_loop L inp st n).1.d_freq ≤ (work_loop L inp st n).1.d_max_freq := by
  induction n with
  | zero => exact ⟨rfl, rfl, h.1, h.2.1⟩
  | succ m ih =>
    have hm : (work_loop L inp st m).1.d_min_freq ≤ (work_loop L inp st m).1.d_max_freq := by
      rw [ih.1, ih.2.1]; exact h.2.2
    have hb := work_body_freq_bounds L inp m (work_loop L inp st m) hm
    simp only [work_loop]
    exact ⟨hb.1.trans ih.1, hb.2.1.trans ih.2.1, hb.2.2.1, hb.2.2.2⟩

theorem design_filter_ok_fields (L : Libm K) (s t : State K) (sps rolloff : K) (n : Int)
    (h : design_filter L s sps rolloff n = .ok t) :
    t.d_sps = s.d_sps ∧ t.d_rolloff = s.d_rolloff ∧ t.d_filter_size = s.d_filter_size ∧
    t.d_loop_bw = s.d_loop_bw ∧ t.d_damping = s.d_damping ∧ t.d_alpha = s.d_alpha ∧
    t.d_beta = s.d_beta ∧ t.d_max_freq = s.d_max_freq ∧ t.d_min_freq = s.d_min_freq ∧
    t.d_freq = s.d_freq ∧ t.d_phase = s.d_phase ∧ t.d_history = n + 1 := by
  have hf := design_filter_fields L s sps rolloff n
  rw [h] at hf
  exact hf

/-- The members of a newly built object, apart from its taps. -/
theorem construct_state_fields (L : Libm K) (raw : State K) (sps ro : K) (F : Int) (bw : K)
    (h1 : 0 < sps) (h2 : 0 ≤ ro) (h3 : ro ≤ 1) (h4 : 0 < F) (h5 : 0 ≤ bw) :
    (gr_fll_band_edge_cc L raw sps ro F bw).state.d_freq = 0 ∧
    (gr_fll_band_edge_cc L raw sps ro F bw).state.d_phase = 0 ∧
    (gr_fll_band_edge_cc L raw sps ro F bw).state.d_max_freq = M_TWOPI L * (2 / sps) ∧
    (gr_fll_band_edge_cc L raw sps ro F bw).state.d_min_freq = -M_TWOPI L * (2 / sps) ∧
    (gr_fll_band_edge_cc L raw sps ro F bw).state.d_alpha =
      4 * (L.sqrt 2 / 2) * bw / (1 + 2 * (L.sqrt 2 / 2) * bw + bw * bw) ∧
    (gr_fll_band_edge_cc L raw sps ro F bw).state.d_beta =
      4 * bw * bw / (1 + 2 * (L.sqrt 2 / 2) * bw + bw * bw) ∧
    (gr_fll_band_edge_cc L raw sps ro F bw).state.d_loop_bw = bw ∧
    (gr_fll_band_edge_cc L raw sps ro F bw).state.d_filter_size = F ∧
    (gr_fll_band_edge_cc L raw sps ro F bw).state.d_sps = sps ∧
    (gr_fll_band_edge_cc L raw sps ro F bw).state.d_rolloff = ro := by
  rw [(construct_state L raw sps ro F bw h1 h2 h3 h4 h5).2.1]
  obtain ⟨f1, f2, f3, f4, _, f6, f7, f8, f9, _, _, _⟩ :=
    design_filter_fields L (configured L raw sps ro F bw) sps ro F
  refine ⟨rfl, rfl, ?_, ?_, ?_, ?_, ?_, ?_, ?_, ?_⟩
  · exact f8
  · exact f9
  · exact f6
  · exact f7
  · exact f4
  · exact f3
  · exact f1
  · exact f2

/-- What the seven setters leave alone: the loop values and the frequency limits. -/
theorem setters_keep_loop (L : Libm K) (s t : State K) (x : K) (n : Int)
    (h : set_loop_bandwidth s x = .ok t ∨ set_damping_factor s x = .ok t ∨
      set_alpha s x = .ok t ∨ set_beta s x = .ok t ∨
      set_samples_per_symbol L s x = .ok t ∨ set_rolloff L s x = .ok t ∨
      set_filter_size L s n = .ok t) :
    t.d_freq = s.d_freq ∧ t.d_phase = s.d_phase ∧ t.d_max_freq = s.d_max_freq ∧
      t.d_min_freq = s.d_min_freq := by
  rcases h with h | h | h | h | h | h | h
  · simp only [set_loop_bandwidth] at h
    split at h
    · cases h
    · cases h; exact ⟨rfl, rfl, rfl, rfl⟩
  · simp only [set_damping_factor] at h
    split at h
    · cases h
    · cases h; exact ⟨rfl, rfl, rfl, rfl⟩
  · simp only [set_alpha] at h
    split at h
    · cases h
    · cases h; exact ⟨rfl, rfl, rfl, rfl⟩
  · simp only [set_beta] at h
    split at h
    · cases h
    · cases h; exact ⟨rfl, rfl, rfl, rfl⟩
  · simp only [set_samples_per_symbol] at h
    split at h
    · cases h
    · obtain ⟨_, _, _, _, _, _, _, f8, f9, f10, f11, _⟩ :=
        design_filter_ok_fields L _ t _ _ _ h
      exact ⟨f10, f11, f8, f9⟩
  · simp only [set_rolloff] at h
    split at h
    · cases h
    · obtain ⟨_, _, _, _, _, _, _, f8, f9, f10, f11, _⟩ :=
        design_filter_ok_fields L _ t _ _ _ h
      exact ⟨f10, f11, f8, f9⟩
  · simp only [set_filter_size] at h
    split at h
    · cases h
    · obtain ⟨_, _, _, _, _, _, _, f8, f9, f10, f11, _⟩ :=
        design_filter_ok_fields L _ t _ _ _ h
      exact ⟨f10, f11, f8, f9⟩

/-- C4, amended: in every state reached from a successful construction by successful setter
calls and work calls on arbitrary input, every filter design on the way having a normaliser
that is not zero (M_PI being positive), the stored frequency estimate lies between the
stored clamp bounds, and the lower bound is not above the upper one. -/
theorem freq_invariant (L : Libm K) (hpi : 0 < L.pi) (s : State K) (h : Reachable L s) :
    s.d_min_freq ≤ s.d_freq ∧ s.d_freq ≤ s.d_max_freq ∧ s.d_min_freq ≤ s.d_max_freq := by
  induction h with
  | construct raw sps ro F bw s hc =>
    obtain ⟨h1, h2, h3, h4, h5⟩ := construct_ok_valid L raw sps ro F bw s hc
    obtain ⟨f1, _, f3, f4, _⟩ := construct_state_fields L raw sps ro F bw h1 h2 h3 h4 h5
    rw [Outcome.state_eq_of_ok _ s hc] at f1 f3 f4
    have hpos : 0 ≤ M_TWOPI L * (2 / sps) := by
      unfold M_TWOPI; positivity
    rw [f1, f3, f4]
    refine ⟨?_, hpos, ?_⟩
    · rw [neg_mul]; exact neg_nonpos.mpr hpos
    · rw [neg_mul]; exact (neg_nonpos.mpr hpos).trans hpos
  | loop_bandwidth s bw t _ hs ih =>
    obtain ⟨e1, _, e3, e4⟩ := setters_keep_loop L s t bw 0 (Or.inl hs)
    rw [e1, e3, e4]; exact ih
  | damping_factor s df t _ hs ih =>
    obtain ⟨e1, _, e3, e4⟩ := setters_keep_loop L s t df 0 (Or.inr (Or.inl hs))
    rw [e1, e3, e4]; exact ih
  | alpha s a t _ hs ih =>
    obtain ⟨e1, _, e3, e4⟩ := setters_keep_loop L s t a 0 (Or.inr (Or.inr (Or.inl hs)))
    rw [e1, e3, e4]; exact ih
  | beta s b t _ hs ih =>
    obtain ⟨e1, _, e3, e4⟩ :=
      setters_keep_loop L s t b 0 (Or.inr (Or.inr (Or.inr (Or.inl hs))))
    rw [e1, e3, e4]; exact ih
  | samples_per_symbol s sps t _ hs ih =>
    obtain ⟨e1, _, e3, e4⟩ :=
      setters_keep_loop L s t sps 0 (Or.inr (Or.inr (Or.inr (Or.inr (Or.inl hs)))))
    rw [e1, e3, e4]; exact ih
  | rolloff s r t _ hs ih =>
    obtain ⟨e1, _, e3, e4⟩ :=
      setters_keep_loop L s t r 0 (Or.inr (Or.inr (Or.inr (Or.inr (Or.inr (Or.inl hs))))))
    rw [e1, e3, e4]; exact ih
  | filter_size s n t _ hs ih =>
    obtain ⟨e1, _, e3, e4⟩ :=
      setters_keep_loop L s t 0 n (Or.inr (Or.inr (Or.inr (Or.inr (Or.inr (Or.inr hs))))))
    rw [e1, e3, e4]; exact ih
  | work s n inp o _ ih =>
    unfold work
    split
    · exact ih
    · have hb := work_loop_freq_bounds L inp (s, o) n.toNat ih
      refine ⟨hb.2.2.1, hb.2.2.2, ?_⟩
      rw [hb.1, hb.2.1]; exact ih.2.2

/-- C5, the code at the failing input: a block built with sps 2 has limits ±2π·(2/2); after
a successful set_samples_per_symbol(4) the getter returns 4 but the stored limits are still
±2π·(2/2), not ±2π·(2/4). -/
theorem set_sps_keeps_limits :
    (set_samples_per_symbol realLibm
      (gr_fll_band_edge_cc realLibm raw0 2 0 2 0).state 4).isOk = true ∧
    get_samples_per_symbol (set_samples_per_symbol realLibm
      (gr_fll_band_edge_cc realLibm raw0 2 0 2 0).state 4).state = 4 ∧
    (set_samples_per_symbol realLibm
      (gr_fll_band_edge_cc realLibm raw0 2 0 2 0).state 4).state.d_max_freq
      = M_TWOPI realLibm * (2 / 2) ∧
    (set_samples_per_symbol realLibm
      (gr_fll_band_edge_cc realLibm raw0 2 0 2 0).state 4).state.d_min_freq
      = -M_TWOPI realLibm * (2 / 2) ∧
    (set_samples_per_symbol realLibm
      (gr_fll_band_edge_cc realLibm raw0 2 0 2 0).state 4).state.d_max_freq
      ≠ M_TWOPI realLibm * (2 / 4) ∧
    (set_samples_per_symbol realLibm
      (gr_fll_band_edge_cc realLibm raw0 2 0 2 0).state 4).state.d_min_freq
      ≠ -M_TWOPI realLibm * (2 / 4) := by
  have h4 : ¬ (4 : ℝ) ≤ 0 := by norm_num
  have hpi : (0 : ℝ) < Real.pi := Real.pi_pos
  obtain ⟨_, _, c3, c4, _⟩ := construct_state_fields realLibm raw0 2 0 2 0 (by norm_num)
    (by norm_num) (by norm_num) (by norm_num) (by norm_num)
  have hset : set_samples_per_symbol realLibm
      (gr_fll_band_edge_cc realLibm raw0 2 0 2 0).state 4 =
      design_filter realLibm
        { (gr_fll_band_edge_cc realLibm raw0 2 0 2 0).state with d_sps := 4 } 4
        (gr_fll_band_edge_cc realLibm raw0 2 0 2 0).state.d_rolloff
        (gr_fll_band_edge_cc realLibm raw0 2 0 2 0).state.d_filter_size := by
    simp only [set_samples_per_symbol, if_neg h4]
  obtain ⟨f1, _, _, _, _, _, _, f8, f9, _⟩ := design_filter_fields realLibm
    { (gr_fll_band_edge_cc realLibm raw0 2 0 2 0).state with d_sps := 4 } 4
    (gr_fll_band_edge_cc realLibm raw0 2 0 2 0).state.d_rolloff
    (gr_fll_band_edge_cc realLibm raw0 2 0 2 0).state.d_filter_size
  rw [hset, get_samples_per_symbol, f1, f8, f9]
  simp only [c3, c4]
  refine ⟨design_filter_isOk realLibm _ _ _ _, trivial, trivial, trivial, ?_, ?_⟩
  · simp only [M_TWOPI, realLibm]
    intro h; nlinarith
  · simp only [M_TWOPI, realLibm]
    intro h; nlinarith

@[simp] theorem gr_complex.add_re (a b : gr_complex K) : (a + b).re = a.re + b.re := rfl

@[simp] theorem gr_complex.add_im (a b : gr_complex K) : (a + b).im = a.im + b.im := rfl

@[simp] theorem gr_complex.mul_re (a b : gr_complex K) :
    (a * b).re = a.re * b.re - a.im * b.im := rfl

@[simp] theorem gr_complex.mul_im (a b : gr_complex K) :
    (a * b).im = a.re * b.im + a.im * b.re := rfl

@[simp] theorem gr_complex.zero_re : (0 : gr_complex K).re = 0 := rfl

@[simp] theorem gr_complex.zero_im : (0 : gr_complex K).im = 0 := rfl

@[simp] theorem gr_complex.one_re : (1 : gr_complex K).re = 1 := rfl

@[simp] theorem gr_complex.one_im : (1 : gr_complex K).im = 0 := rfl

@[simp] theorem gr_complex.scale_re (t : K) (z : gr_complex K) :
    (gr_complex.scale t z).re = t * z.re := rfl

@[simp] theorem gr_complex.scale_im (t : K) (z : gr_complex K) :
    (gr_complex.scale t z).im = t * z.im := rfl

@[simp] theorem gr_complex.conj_re (z : gr_complex K) : z.conj.re = z.re := rfl

@[simp] theorem gr_complex.conj_im (z : gr_complex K) : z.conj.im = -z.im := rfl

theorem work_body_out (L : Libm K) (inp : Int → gr_complex K) (i : Nat)
    (st : State K × OutputItems K) :
    (work_body L inp i st).2.out =
      Function.update st.2.out ((i : Int) + st.1.d_filter_size - 1)
        (inp i * gr_expj L st.1.d_phase) := by
  simp only [work_body]
  split <;> rfl

theorem sinc_half : sinc realLibm (2⁻¹) = 2 / Real.pi := by
  have hpi : Real.pi ≠ 0 := Real.pi_ne_zero
  have e : Real.pi * (2⁻¹) = Real.pi / 2 := by ring
  simp only [sinc, realLibm, e, Real.sin_pi_div_two]
  rw [if_neg (by norm_num)]
  field_simp

theorem sinc_neg_half : sinc realLibm (-2⁻¹) = 2 / Real.pi := by
  have hpi : Real.pi ≠ 0 := Real.pi_ne_zero
  have e : Real.pi * (-2⁻¹) = -(Real.pi / 2) := by ring
  simp only [sinc, realLibm, e, Real.sin_neg, Real.sin_pi_div_two]
  rw [if_neg (by norm_num)]
  field_simp

/-- The band-edge taps designed over the reals for sps 2, rolloff 0 and 2 taps, starting
from empty tap vectors: the normaliser is 8/π, and lower = [-j/2, 1/2], upper = [j/2, 1/2]. -/
theorem taps_2_0_2 (s : State ℝ) (hl : s.d_taps_lower = []) (hu : s.d_taps_upper = []) :
    (design_filter realLibm s 2 0 2).isExact = true ∧
    (design_filter realLibm s 2 0 2).state.d_taps_lower = [⟨0, -(1 / 2)⟩, ⟨1 / 2, 0⟩] ∧
    (design_filter realLibm s 2 0 2).state.d_taps_upper = [⟨0, 1 / 2⟩, ⟨1 / 2, 0⟩] := by
  have hpi : Real.pi ≠ 0 := Real.pi_ne_zero
  have e2 : (2 : Int).toNat = 2 := rfl
  have ht : Int.tdiv 1 2 = 0 := rfl
  have eA : M_TWOPI realLibm * ((-((0 : Int) : ℝ) + 1) / (2 * 2)) = Real.pi / 2 := by
    simp only [M_TWOPI, realLibm]; push_cast; ring
  have eB : M_TWOPI realLibm * (-((0 : Int) : ℝ) / (2 * 2)) = 0 := by simp
  have eT : (2 / Real.pi + 2 / Real.pi) /
      (2 / Real.pi + 2 / Real.pi + (2 / Real.pi + 2 / Real.pi)) = 2⁻¹ := by
    field_simp; ring
  have eP : ¬ (2 / Real.pi + 2 / Real.pi = 0) := by
    have hpos : 0 < 2 / Real.pi := div_pos (by norm_num) Real.pi_pos
    intro h
    linarith
  simp only [design_filter, hl, hu, e2, bb_loop, spin_loop, resize]
  simp
  rw [sinc_half, sinc_neg_half]
  simp only [if_neg eP, Outcome.isExact, Outcome.state, List.set_cons_zero]
  rw [ht, eA, eB, eT]
  simp [gr_complex.eq_iff, realLibm]

/-- Two loop iterations on `phase_input` from a state with the taps of `taps_2_0_2`,
alpha 1, beta 0 and zero loop values: the discriminator is 0 at sample 0 and -16 at
sample 1, so the stored phase ends at -16 + 2π. -/
theorem phase_eval (s : State ℝ) (h1 : s.d_updated = false) (h2 : s.d_filter_size = 2)
    (h3 : s.d_taps_lower = [⟨0, -(1 / 2)⟩, ⟨1 / 2, 0⟩])
    (h4 : s.d_taps_upper = [⟨0, 1 / 2⟩, ⟨1 / 2, 0⟩])
    (h5 : s.d_alpha = 1) (h6 : s.d_beta = 0) (h7 : s.d_freq = 0) (h8 : s.d_phase = 0)
    (h9 : s.d_max_freq = 2 * Real.pi) (h10 : s.d_min_freq = -(2 * Real.pi)) :
    (work realLibm s 2 phase_input (items0 1)).state.d_phase = -16 + 2 * Real.pi := by
  have hpi : (0 : ℝ) < Real.pi := Real.pi_pos
  have hpi4 : Real.pi ≤ 4 := Real.pi_le_four
  have e2 : (2 : Int).toNat = 2 := rfl
  obtain ⟨sps, ro, F, bw, dmp, al, be, mx, mn, tl, tu, upd, fr, ph, hist⟩ := s
  simp only at h1 h2 h3 h4 h5 h6 h7 h8 h9 h10
  subst h1 h2 h3 h4 h5 h6 h7 h8 h9 h10
  have m1 : ¬ Real.pi < 0 := hpi.not_lt
  have m2 : ¬ 2 * Real.pi < 0 := by linarith
  simp [work, work_loop, work_body, dot, e2, Function.update_apply, gr_complex.norm,
      phase_input, items0, realLibm, M_TWOPI, m1, m2]
  norm_num
  split_ifs <;> linarith

theorem set_alpha_ok (s : State K) (a : K) (h0 : 0 ≤ a) (h1 : a ≤ 1) :
    set_alpha s a = .ok { s with d_alpha := a } := by
  have ha : ¬ (a < 0 ∨ a > 1) := by
    rintro (h | h)
    · exact absurd h (not_lt.mpr h0)
    · exact absurd h (not_lt.mpr h1)
  simp only [set_alpha, if_neg ha]

theorem work_skip (L : Libm K) (s : State K) (n : Int) (inp : Int → gr_complex K)
    (o : OutputItems K) (h : s.d_updated = true) :
    work L s n inp o = ⟨0, { s with d_updated := false }, o⟩ := by
  simp only [work, h, if_true]

theorem work_run (L : Libm K) (s : State K) (n : Int) (inp : Int → gr_complex K)
    (o : OutputItems K) (h : s.d_updated = false) :
    work L s n inp o =
      ⟨n, (work_loop L inp (s, o) n.toNat).1, (work_loop L inp (s, o) n.toNat).2⟩ := by
  simp [work, h]

theorem loop_error_first (s : State ℝ) (h2 : s.d_filter_size = 2)
    (h3 : s.d_taps_lower = [⟨0, -(1 / 2)⟩, ⟨1 / 2, 0⟩])
    (h4 : s.d_taps_upper = [⟨0, 1 / 2⟩, ⟨1 / 2, 0⟩]) (h8 : s.d_phase = 0) :
    loop_error realLibm phase_input 0 (s, items0 1) = 0 := by
  have e2 : (2 : Int).toNat = 2 := rfl
  simp [loop_error, h2, h3, h4, h8, dot, e2, Function.update_apply, gr_complex.norm,
    phase_input, items0, realLibm]

@[simp] theorem Outcome.state_ok {σ : Type} (s : σ) : (Outcome.ok s).state = s := rfl

/-- The block of the phase scenario is built with every member a number. -/
theorem phase_construct_exact :
    gr_fll_band_edge_cc realLibm raw0 2 0 2 0 =
      .ok (gr_fll_band_edge_cc realLibm raw0 2 0 2 0).state := by
  apply Outcome.eq_ok_of_isExact
  rw [(construct_state realLibm raw0 2 0 2 0 (by norm_num) (by norm_num) (by norm_num)
    (by norm_num) (by norm_num)).2.2]
  exact (taps_2_0_2 (configured realLibm raw0 2 0 2 0) rfl rfl).1

theorem phase_start_facts :
    phase_start.d_updated = false ∧ phase_start.d_filter_size = 2 ∧
    phase_start.d_taps_lower = [⟨0, -(1 / 2)⟩, ⟨1 / 2, 0⟩] ∧
    phase_start.d_taps_upper = [⟨0, 1 / 2⟩, ⟨1 / 2, 0⟩] ∧
    phase_start.d_alpha = 1 ∧ phase_start.d_beta = 0 ∧ phase_start.d_freq = 0 ∧
    phase_start.d_phase = 0 ∧ phase_start.d_max_freq = 2 * Real.pi ∧
    phase_start.d_min_freq = -(2 * Real.pi) := by
  obtain ⟨v1, v2, v3, v4, _, v6, _, v8, _, _⟩ :=
    construct_state_fields realLibm raw0 2 0 2 0 (by norm_num) (by norm_num) (by norm_num)
      (by norm_num) (by norm_num)
  have hu := construct_state_updated realLibm raw0 2 0 2 0 (by norm_num) (by norm_num)
    (by norm_num) (by norm_num) (by norm_num)
  have hs := (construct_state realLibm raw0 2 0 2 0 (by norm_num) (by norm_num)
    (by norm_num) (by norm_num) (by norm_num)).2.1
  have ht := taps_2_0_2 (configured realLibm raw0 2 0 2 0) rfl rfl
  have hl : (gr_fll_band_edge_cc realLibm raw0 2 0 2 0).state.d_taps_lower =
      [⟨0, -(1 / 2)⟩, ⟨1 / 2, 0⟩] := by
    rw [hs]; exact ht.2.1
  have hup : (gr_fll_band_edge_cc realLibm raw0 2 0 2 0).state.d_taps_upper =
      [⟨0, 1 / 2⟩, ⟨1 / 2, 0⟩] := by
    rw [hs]; exact ht.2.2
  unfold phase_start
  rw [set_alpha_ok _ 1 (by norm_num) (by norm_num), Outcome.state_ok,
    work_skip realLibm
      { (gr_fll_band_edge_cc realLibm raw0 2 0 2 0).state with d_alpha := 1 } 2 phase_input
      (items0 1) hu]
  refine ⟨rfl, v8, hl, hup, rfl, ?_, v1, v2, ?_, ?_⟩
  · show (gr_fll_band_edge_cc realLibm raw0 2 0 2 0).state.d_beta = 0
    rw [v6]
    simp
  · show (gr_fll_band_edge_cc realLibm raw0 2 0 2 0).state.d_max_freq = 2 * Real.pi
    rw [v3]
    simp [M_TWOPI, realLibm]
  · show (gr_fll_band_edge_cc realLibm raw0 2 0 2 0).state.d_min_freq = -(2 * Real.pi)
    rw [v4]
    simp [M_TWOPI, realLibm]

theorem phase_scenario_phase : phase_scenario.d_phase = -16 + 2 * Real.pi := by
  obtain ⟨h1, h2, h3, h4, h5, h6, h7, h8, h9, h10⟩ := phase_start_facts
  exact phase_eval phase_start h1 h2 h3 h4 h5 h6 h7 h8 h9 h10

theorem phase_start_reachable : Reachable realLibm phase_start := by
  unfold phase_start
  refine Reachable.work _ _ _ _ (Reachable.alpha _ 1 _
    (Reachable.construct raw0 2 0 2 0 _ phase_construct_exact) ?_)
  rw [set_alpha_ok _ 1 (by norm_num) (by norm_num)]
  rfl

/-- C4, at the block built for sps 4, rolloff 0.35, 32 taps, bandwidth 2π/100, after the
skipped work call and a work call for three items. -/
theorem freq_invariant_witness :
    (work realLibm (work realLibm
      (gr_fll_band_edge_cc realLibm raw0 4 (35 / 100) 32 (2 * Real.pi / 100)).state
      3 (fun _ => 1) (items0 4)).state 3 (fun _ => 1) (items0 4)).state.d_min_freq ≤
    (work realLibm (work realLibm
      (gr_fll_band_edge_cc realLibm raw0 4 (35 / 100) 32 (2 * Real.pi / 100)).state
      3 (fun _ => 1) (items0 4)).state 3 (fun _ => 1) (items0 4)).state.d_freq ∧
    (work realLibm (work realLibm
      (gr_fll_band_edge_cc realLibm raw0 4 (35 / 100) 32 (2 * Real.pi / 100)).state
      3 (fun _ => 1) (items0 4)).state 3 (fun _ => 1) (items0 4)).state.d_freq ≤
    (work realLibm (work realLibm
      (gr_fll_band_edge_cc realLibm raw0 4 (35 / 100) 32 (2 * Real.pi / 100)).state
      3 (fun _ => 1) (items0 4)).state 3 (fun _ => 1) (items0 4)).state.d_max_freq :=
  have h := freq_invariant realLibm Real.pi_pos _
    (Reachable.work _ 3 (fun _ => 1) (items0 4)
      (Reachable.work _ 3 (fun _ => 1) (items0 4)
        (Reachable.construct raw0 4 (35 / 100) 32 (2 * Real.pi / 100) _
          (construct_exact realLibm raw0 4 (35 / 100) 32 (2 * Real.pi / 100)
            (by norm_num) (by norm_num) (by norm_num) (by norm_num) (by positivity)
            design_power_4_35_32))))
  ⟨h.1, h.2.1⟩

/-- C3, refuted as stated: the state reached by building the block (sps 2, rolloff 0,
2 taps, bandwidth 0), set_alpha(1), the skipped work call, and one work call for the two
input samples 4 and 4j has stored phase -16 + 2π, which is below -π. -/
theorem phase_invariant_counterexample :
    Reachable realLibm phase_scenario ∧ phase_scenario.d_phase = -16 + 2 * Real.pi ∧
      ¬ (-realLibm.pi < phase_scenario.d_phase) := by
  refine ⟨Reachable.work _ _ _ _ phase_start_reachable, phase_scenario_phase, ?_⟩
  rw [phase_scenario_phase]
  have hpi4 : Real.pi ≤ 4 := Real.pi_le_four
  show ¬ (-Real.pi < -16 + 2 * Real.pi)
  intro h
  linarith

/-- C3 (amended): one loop iteration stores the unwrapped update
p = phase + (freq + beta*e) + alpha*e, corrected by 2π at most once; whenever
-3π <= p <= 3π the stored phase satisfies -π <= phase <= π. -/
theorem work_body_phase_bounds (L : Libm K) (inp : Int → gr_complex K) (i : Nat)
    (st : State K × OutputItems K)
    (hlo : -(3 * L.pi) ≤ st.1.d_phase + (st.1.d_freq + st.1.d_beta * loop_error L inp i st) +
      st.1.d_alpha * loop_error L inp i st)
    (hhi : st.1.d_phase + (st.1.d_freq + st.1.d_beta * loop_error L inp i st) +
      st.1.d_alpha * loop_error L inp i st ≤ 3 * L.pi) :
    (-L.pi ≤ (work_body L inp i st).1.d_phase ∧ (work_body L inp i st).1.d_phase ≤ L.pi) ∧
    ((work_body L inp i st).1.d_phase =
        st.1.d_phase + (st.1.d_freq + st.1.d_beta * loop_error L inp i st) +
          st.1.d_alpha * loop_error L inp i st ∨
      (work_body L inp i st).1.d_phase =
        st.1.d_phase + (st.1.d_freq + st.1.d_beta * loop_error L inp i st) +
          st.1.d_alpha * loop_error L inp i st - 2 * L.pi ∨
      (work_body L inp i st).1.d_phase =
        st.1.d_phase + (st.1.d_freq + st.1.d_beta * loop_error L inp i st) +
          st.1.d_alpha * loop_error L inp i st + 2 * L.pi) := by
  rw [work_body_fst]
  simp only [M_TWOPI]
  split_ifs with h1 h2
  · refine ⟨⟨?_, ?_⟩, Or.inr (Or.inl rfl)⟩
    · linarith
    · linarith
  · refine ⟨⟨?_, ?_⟩, Or.inr (Or.inr rfl)⟩
    · linarith
    · linarith
  · exact ⟨⟨not_lt.mp h2, not_lt.mp h1⟩, Or.inl rfl⟩

/-- C3 (amended), at the first sample of the phase scenario, where the discriminator is 0. -/
theorem work_body_phase_bounds_witness :
    -realLibm.pi ≤ (work_body realLibm phase_input 0 (phase_start, items0 1)).1.d_phase ∧
      (work_body realLibm phase_input 0 (phase_start, items0 1)).1.d_phase ≤ realLibm.pi := by
  obtain ⟨_, h2, h3, h4, h5, h6, h7, h8, _, _⟩ := phase_start_facts
  have he := loop_error_first phase_start h2 h3 h4 h8
  have hpi : (0 : ℝ) < Real.pi := Real.pi_pos
  refine (work_body_phase_bounds realLibm phase_input 0 (phase_start, items0 1) ?_ ?_).1
  · rw [he]
    simp only [h5, h6, h7, h8, realLibm]
    linarith
  · rw [he]
    simp only [h5, h6, h7, h8, realLibm]
    linarith

theorem work_loop_filter_size (L : Libm K) (inp : Int → gr_complex K)
    (st : State K × OutputItems K) (n : Nat) :
    (work_loop L inp st n).1.d_filter_size = st.1.d_filter_size := by
  induction n with
  | zero => rfl
  | succ m ih =>
    simp only [work_loop]
    rw [work_body_fst]
    exact ih

/-- Where the sample loop leaves the rotated samples: after `n` iterations, slot
`i + filter_size - 1` holds input `i` times the phasor of the phase held before sample `i`. -/
theorem work_loop_out (L : Libm K) (inp : Int → gr_complex K)
    (st : State K × OutputItems K) (n i : Nat) (hi : i < n) :
    (work_loop L inp st n).2.out ((i : Int) + st.1.d_filter_size - 1) =
      inp i * gr_expj L (work_loop L inp st i).1.d_phase := by
  induction n with
  | zero => exact absurd hi (Nat.not_lt_zero i)
  | succ m ih =>
    simp only [work_loop]
    rw [work_body_out, work_loop_filter_size]
    rcases Nat.lt_succ_iff_lt_or_eq.mp hi with h | h
    · have hne : (i : Int) + st.1.d_filter_size - 1 ≠ (m : Int) + st.1.d_filter_size - 1 := by
        intro e
        have : (i : Int) = (m : Int) := by linarith
        exact absurd (Int.ofNat_inj.mp this) (Nat.ne_of_lt h)
      rw [Function.update_noteq hne]
      exact ih h
    · subst h
      rw [Function.update_same]

/-- C8, refuted as stated: in the phase scenario (2 taps) a work call for one item returns 1
and leaves position 0 of the corrected stream at its old content 0, while input[0] times
the phasor of the current phase is 4. -/
theorem rotate_position_counterexample :
    Reachable realLibm phase_start ∧
    (work realLibm phase_start 1 phase_input (items0 1)).ret = 1 ∧
    (work realLibm phase_start 1 phase_input (items0 1)).items.out 0 = 0 ∧
    phase_input 0 * gr_expj realLibm phase_start.d_phase = ⟨4, 0⟩ ∧
    (work realLibm phase_start 1 phase_input (items0 1)).items.out 0 ≠
      phase_input 0 * gr_expj realLibm phase_start.d_phase := by
  obtain ⟨h1, h2, _, _, _, _, _, h8, _, _⟩ := phase_start_facts
  have e1 : (1 : Int).toNat = 1 := rfl
  have hout : (work realLibm phase_start 1 phase_input (items0 1)).items.out 0 = 0 := by
    rw [work_run _ _ _ _ _ h1]
    simp only [e1, work_loop]
    rw [work_body_out]
    simp [h2, items0]
  have hrot : phase_input 0 * gr_expj realLibm phase_start.d_phase = ⟨4, 0⟩ := by
    rw [h8]
    simp [gr_complex.eq_iff, phase_input, realLibm]
  refine ⟨phase_start_reachable, ?_, hout, hrot, ?_⟩
  · rw [work_run _ _ _ _ _ h1]
  · rw [hout, hrot]
    intro h
    have := congrArg gr_complex.re h
    simp at this

/-- C8 (amended): a work call that is not skipped returns its requested count n and, for
every filter size and every i in [0, n), leaves at position i + filter_size - 1 of the
corrected stream the value input[i] times exp(j*phase_i), phase_i being the phase held
just before sample i; for filter_size 1 that position is i. -/
theorem work_rotates (L : Libm K) (s : State K) (n : Int) (inp : Int → gr_complex K)
    (o : OutputItems K) (hrun : s.d_updated = false) (i : Nat) (hi : (i : Int) < n) :
    (work L s n inp o).ret = n ∧
    (work L s n inp o).items.out ((i : Int) + s.d_filter_size - 1) =
      inp i * gr_expj L (work_loop L inp (s, o) i).1.d_phase ∧
    (s.d_filter_size = 1 →
      (work L s n inp o).items.out i =
        inp i * gr_expj L (work_loop L inp (s, o) i).1.d_phase) := by
  have hin : i < n.toNat := by omega
  have key := work_loop_out L inp (s, o) n.toNat i hin
  rw [work_run L s n inp o hrun]
  refine ⟨rfl, key, ?_⟩
  intro hF
  have key2 := key
  simp only [hF] at key2
  have e : (i : Int) + 1 - 1 = i := by ring
  rw [e] at key2
  exact key2

/-- C8 (amended), at sample 1 of the phase scenario. -/
theorem work_rotates_witness :
    (work realLibm phase_start 2 phase_input (items0 1)).items.out
        (((1 : Nat) : Int) + phase_start.d_filter_size - 1) =
      phase_input ((1 : Nat) : Int) *
        gr_expj realLibm (work_loop realLibm phase_input (phase_start, items0 1) 1).1.d_phase :=
  (work_rotates realLibm phase_start 2 phase_input (items0 1) phase_start_facts.1 1
    (by norm_num)).2.1

theorem realLibm_lawful : realLibm.Lawful :=
  { pi_pos := Real.pi_pos, cos_zero := Real.cos_zero, sin_zero := Real.sin_zero,
    cos_neg := Real.cos_neg, sin_neg := Real.sin_neg }

theorem gr_complex.conj_zero : (0 : gr_complex K).conj = 0 := by
  rw [gr_complex.eq_iff]
  simp

theorem gr_complex.norm_mul (a b : gr_complex K) : (a * b).norm = a.norm * b.norm := by
  simp only [gr_complex.norm, gr_complex.mul_re, gr_complex.mul_im]
  ring

theorem gr_complex.norm_conj (a : gr_complex K) : a.conj.norm = a.norm := by
  simp only [gr_complex.norm, gr_complex.conj_re, gr_complex.conj_im]
  ring

theorem resize_length (v : List (gr_complex K)) (n : Nat) : (resize v n).length = n := by
  simp only [resize, List.length_append, List.length_take, List.length_replicate]
  omega

/-- With a zero normaliser the first iteration of the second loop already leaves the
numbers. -/
theorem spin_loop_none (L : Libm K) (sps ro : K) (F : Int) (bb : List K) (N : Int)
    (lower upper : List (gr_complex K)) (m : Nat) (hm : 0 < m) :
    spin_loop L sps ro F bb 0 N lower upper m = none := by
  cases m with
  | zero => exact absurd hm (Nat.lt_irrefl 0)
  | succ k =>
    simp only [spin_loop]
    cases spin_loop L sps ro F bb 0 N lower upper k with
    | none => rfl
    | some acc => simp

/-- The second loop of design_filter keeps the sizes of the two tap vectors. -/
theorem spin_loop_length (L : Libm K) (sps ro : K) (F : Int) (bb : List K) (power : K)
    (N : Int) (lower upper : List (gr_complex K)) (m : Nat) :
    ∀ acc, spin_loop L sps ro F bb power N lower upper m = some acc →
      acc.1.length = lower.length ∧ acc.2.length = upper.length := by
  induction m with
  | zero =>
    intro acc h
    simp only [spin_loop, Option.some.injEq] at h
    rw [← h]
    exact ⟨rfl, rfl⟩
  | succ m ih =>
    intro acc h
    simp only [spin_loop] at h
    cases hprev : spin_loop L sps ro F bb power N lower upper m with
    | none =>
      rw [hprev] at h
      cases h
    | some prev =>
      rw [hprev] at h
      simp only at h
      split at h
      · cases h
      · simp only [Option.some.injEq] at h
        rw [← h]
        simp only [List.length_set]
        exact ih prev hprev

/-- With a normaliser that is not zero, the second loop of design_filter completes and
writes conjugate values into the two tap vectors, from the last slot downwards. -/
theorem spin_loop_conj (L : Libm K) (hL : L.Lawful) (sps ro : K) (F : Int) (bb : List K)
    (power : K) (hp : power ≠ 0) (N : Int) (lower upper : List (gr_complex K)) (n : Nat)
    (hF : F.toNat = n) (hl : lower.length = n) (hu : upper.length = n) (m : Nat)
    (hm : m ≤ n) :
    ∃ acc, spin_loop L sps ro F bb power N lower upper m = some acc ∧
      acc.1.length = n ∧ acc.2.length = n ∧
      ∀ k, n - m ≤ k → acc.2.getD k 0 = (acc.1.getD k 0).conj := by
  induction m with
  | zero =>
    refine ⟨(lower, upper), rfl, hl, hu, ?_⟩
    intro k hk
    show upper.getD k 0 = (lower.getD k 0).conj
    rw [List.getD_eq_default _ _ (by omega), List.getD_eq_default _ _ (by omega),
      gr_complex.conj_zero]
  | succ m ih =>
    obtain ⟨prev, hprev, il, iu, ic⟩ := ih (by omega)
    clear ih
    have hidx : (F - (m : Int) - 1).toNat = n - 1 - m := by omega
    simp only [spin_loop, hprev, if_neg hp, hidx]
    refine ⟨_, rfl, ?_, ?_, ?_⟩
    · simp only [List.length_set]; exact il
    · simp only [List.length_set]; exact iu
    intro k hk
    by_cases hkm : n - 1 - m = k
    · subst hkm
      have h1 : n - 1 - m < prev.1.length := by omega
      have h2 : n - 1 - m < prev.2.length := by omega
      simp only [List.getD_eq_getElem?_getD, List.getElem?_set_self h1,
        List.getElem?_set_self h2, Option.getD_some]
      rw [gr_complex.eq_iff]
      have e : -M_TWOPI L * (1 + ro) * ((-(N : K) + (m : K)) / (2 * sps)) =
          -(M_TWOPI L * (1 + ro) * ((-(N : K) + (m : K)) / (2 * sps))) := by ring
      simp only [gr_complex.scale_re, gr_complex.scale_im, gr_complex.conj_re,
        gr_complex.conj_im, gr_expj_re, gr_expj_im, e, hL.cos_neg, hL.sin_neg]
      constructor
      · trivial
      · ring
    · have hk2 : n - m ≤ k := by omega
      simp only [List.getD_eq_getElem?_getD, List.getElem?_set_ne hkm]
      have := ic k hk2
      simp only [List.getD_eq_getElem?_getD] at this
      exact this

/-- In every case design_filter leaves both tap vectors with filter_size entries. -/
theorem design_filter_length (L : Libm K) (s : State K) (sps ro : K) (F : Int) :
    (design_filter L s sps ro F).state.d_taps_lower.length = F.toNat ∧
    (design_filter L s sps ro F).state.d_taps_upper.length = F.toNat := by
  simp only [design_filter]
  split
  · rename_i taps h
    have hlen := spin_loop_length L sps ro F _ _ _ _ _ _ taps h
    rw [resize_length, resize_length] at hlen
    exact hlen
  · exact ⟨resize_length _ _, resize_length _ _⟩

/-- With a zero normaliser and a positive filter size the design divides by zero: the
outcome is `non_finite`. -/
theorem design_filter_non_finite (L : Libm K) (s : State K) (sps ro : K) (F : Int)
    (hF : 0 < F) (hp : design_power L sps ro F = 0) :
    design_filter L s sps ro F = .non_finite (design_filter L s sps ro F).state ∧
    (design_filter L s sps ro F).isExact = false := by
  have hp2 : (bb_loop L sps ro (L.rint ((F : K) / sps)) F.toNat).2 = 0 := hp
  have hnone := spin_loop_none L sps ro F
    (bb_loop L sps ro (L.rint ((F : K) / sps)) F.toNat).1
    (Int.tdiv (((bb_loop L sps ro (L.rint ((F : K) / sps)) F.toNat).1.length : Int) - 1) 2)
    (resize s.d_taps_lower F.toNat) (resize s.d_taps_upper F.toNat) F.toNat (by omega)
  simp only [design_filter, hp2, hnone]
  exact ⟨rfl, rfl⟩

/-- With a normaliser that is not zero, the taps written by design_filter are conjugate
pairs, slot by slot. -/
theorem design_filter_conj (L : Libm K) (hL : L.Lawful) (s : State K) (sps ro : K) (F : Int)
    (hp : design_power L sps ro F ≠ 0) (k : Nat) :
    (design_filter L s sps ro F).state.d_taps_upper.getD k 0 =
      ((design_filter L s sps ro F).state.d_taps_lower.getD k 0).conj := by
  have hp2 : (bb_loop L sps ro (L.rint ((F : K) / sps)) F.toNat).2 ≠ 0 := hp
  obtain ⟨acc, hacc, _, _, hc⟩ := spin_loop_conj L hL sps ro F
    (bb_loop L sps ro (L.rint ((F : K) / sps)) F.toNat).1
    (bb_loop L sps ro (L.rint ((F : K) / sps)) F.toNat).2 hp2
    (Int.tdiv (((bb_loop L sps ro (L.rint ((F : K) / sps)) F.toNat).1.length : Int) - 1) 2)
    (resize s.d_taps_lower F.toNat) (resize s.d_taps_upper F.toNat) F.toNat rfl
    (resize_length _ _) (resize_length _ _) F.toNat le_rfl
  simp only [design_filter, hacc]
  exact hc k (by omega)

/-- With conjugate taps and a window of real multiples of one sample, the two filter
outputs are a product with that sample and the product of the conjugate with it. -/
theorem dot_conj (lower upper : List (gr_complex K)) (out : Int → gr_complex K)
    (c : gr_complex K) (i : Int)
    (hconj : ∀ k, upper.getD k 0 = (lower.getD k 0).conj)
    (hout : ∀ j, IsRealMultiple c (out j)) (m : Nat) :
    ∃ A : gr_complex K, dot lower out i m = A * c ∧ dot upper out i m = A.conj * c := by
  induction m with
  | zero =>
    refine ⟨0, ?_, ?_⟩
    · rw [gr_complex.eq_iff]; simp [dot]
    · rw [gr_complex.eq_iff]; simp [dot]
  | succ m ih =>
    obtain ⟨A, hA1, hA2⟩ := ih
    obtain ⟨r, hr⟩ := hout (i + m)
    refine ⟨A + gr_complex.scale r (lower.getD m 0), ?_, ?_⟩
    · simp only [dot, hA1, hr]
      rw [gr_complex.eq_iff]
      simp only [gr_complex.add_re, gr_complex.add_im, gr_complex.mul_re, gr_complex.mul_im,
        gr_complex.scale_re, gr_complex.scale_im]
      constructor <;> ring
    · simp only [dot, hA2, hr, hconj m]
      rw [gr_complex.eq_iff]
      simp only [gr_complex.add_re, gr_complex.add_im, gr_complex.mul_re, gr_complex.mul_im,
        gr_complex.scale_re, gr_complex.scale_im, gr_complex.conj_re, gr_complex.conj_im]
      constructor <;> ring

theorem dot_conj_norm (lower upper : List (gr_complex K)) (out : Int → gr_complex K)
    (c : gr_complex K) (i : Int)
    (hconj : ∀ k, upper.getD k 0 = (lower.getD k 0).conj)
    (hout : ∀ j, IsRealMultiple c (out j)) (m : Nat) :
    (dot lower out i m).norm - (dot upper out i m).norm = 0 := by
  obtain ⟨A, h1, h2⟩ := dot_conj lower upper out c i hconj hout m
  rw [h1, h2, gr_complex.norm_mul, gr_complex.norm_mul, gr_complex.norm_conj]
  ring

theorem work_body_diag (L : Libm K) (inp : Int → gr_complex K) (i : Nat)
    (st : State K × OutputItems K) (h : st.2.size = 4) :
    (work_body L inp i st).2.size = 4 ∧
    (work_body L inp i st).2.frq = Function.update st.2.frq i (work_body L inp i st).1.d_freq ∧
    (work_body L inp i st).2.phs =
      Function.update st.2.phs i (work_body L inp i st).1.d_phase ∧
    (work_body L inp i st).2.err = Function.update st.2.err i (loop_error L inp i st) := by
  simp only [work_body, loop_error]
  rw [if_pos h]
  exact ⟨h, rfl, rfl, rfl⟩

theorem work_loop_taps (L : Libm K) (inp : Int → gr_complex K)
    (st : State K × OutputItems K) (n : Nat) :
    (work_loop L inp st n).1.d_taps_lower = st.1.d_taps_lower ∧
    (work_loop L inp st n).1.d_taps_upper = st.1.d_taps_upper := by
  induction n with
  | zero => exact ⟨rfl, rfl⟩
  | succ m ih =>
    simp only [work_loop]
    rw [work_body_fst]
    exact ih

theorem construct_isOk_valid (L : Libm K) (raw : State K) (sps ro : K) (F : Int) (bw : K)
    (h : (gr_fll_band_edge_cc L raw sps ro F bw).isOk = true) :
    0 < sps ∧ 0 ≤ ro ∧ ro ≤ 1 ∧ 0 < F ∧ 0 ≤ bw := by
  have hn : ¬ (sps ≤ 0 ∨ ro < 0 ∨ ro > 1 ∨ F ≤ 0 ∨ bw < 0) := by
    intro hbad
    have := (construct_isOk_false_iff L raw sps ro F bw).mpr hbad
    rw [h] at this
    cases this
  refine ⟨?_, ?_, ?_, ?_, ?_⟩
  · exact not_le.mp (fun c => hn (Or.inl c))
  · exact not_lt.mp (fun c => hn (Or.inr (Or.inl c)))
  · exact not_lt.mp (fun c => hn (Or.inr (Or.inr (Or.inl c))))
  · exact not_le.mp (fun c => hn (Or.inr (Or.inr (Or.inr (Or.inl c)))))
  · exact not_lt.mp (fun c => hn (Or.inr (Or.inr (Or.inr (Or.inr c)))))

/-- Every state of numbers is a state the block can be driven into. -/
theorem Reachable.driven (L : Libm K) (s : State K) (h : Reachable L s) : Driven L s := by
  induction h with
  | construct raw sps ro F bw s hc =>
    have hd := Driven.construct (L := L) raw sps ro F bw (by rw [hc]; rfl)
    rw [hc] at hd
    exact hd
  | loop_bandwidth s bw t _ hs ih =>
    have hd := Driven.loop_bandwidth s bw ih (by rw [hs]; rfl)
    rw [hs] at hd
    exact hd
  | damping_factor s df t _ hs ih =>
    have hd := Driven.damping_factor s df ih (by rw [hs]; rfl)
    rw [hs] at hd
    exact hd
  | alpha s a t _ hs ih =>
    have hd := Driven.alpha s a ih (by rw [hs]; rfl)
    rw [hs] at hd
    exact hd
  | beta s b t _ hs ih =>
    have hd := Driven.beta s b ih (by rw [hs]; rfl)
    rw [hs] at hd
    exact hd
  | samples_per_symbol s sps t _ hs ih =>
    have hd := Driven.samples_per_symbol s sps ih (by rw [hs]; rfl)
    rw [hs] at hd
    exact hd
  | rolloff s r t _ hs ih =>
    have hd := Driven.rolloff s r ih (by rw [hs]; rfl)
    rw [hs] at hd
    exact hd
  | filter_size s n t _ hs ih =>
    have hd := Driven.filter_size s n ih (by rw [hs]; rfl)
    rw [hs] at hd
    exact hd
  | work s n inp o _ ih => exact Driven.work s n inp o ih

/-- The tap vectors have as many entries as the positive stored filter size, in every state
the block can be driven into. -/
theorem taps_sized_of_driven (L : Libm K) (s : State K) (h : Driven L s) :
    0 < s.d_filter_size ∧ s.d_taps_lower.length = s.d_filter_size.toNat ∧
      s.d_taps_upper.length = s.d_filter_size.toNat := by
  induction h with
  | construct raw sps ro F bw hc =>
    obtain ⟨h1, h2, h3, h4, h5⟩ := construct_isOk_valid L raw sps ro F bw hc
    rw [(construct_state L raw sps ro F bw h1 h2 h3 h4 h5).2.1]
    have hl := design_filter_length L (configured L raw sps ro F bw) sps ro F
    have hf := (design_filter_fields L (configured L raw sps ro F bw) sps ro F).2.2.1
    show 0 < (design_filter L (configured L raw sps ro F bw) sps ro F).state.d_filter_size ∧
      (design_filter L (configured L raw sps ro F bw) sps ro F).state.d_taps_lower.length =
        (design_filter L (configured L raw sps ro F bw) sps ro F).state.d_filter_size.toNat ∧
      (design_filter L (configured L raw sps ro F bw) sps ro F).state.d_taps_upper.length =
        (design_filter L (configured L raw sps ro F bw) sps ro F).state.d_filter_size.toNat
    rw [hf]
    exact ⟨h4, hl.1, hl.2⟩
  | loop_bandwidth s bw _ hs ih =>
    by_cases c : bw < 0
    · simp only [set_loop_bandwidth, if_pos c] at hs
      cases hs
    · simp only [set_loop_bandwidth, if_neg c, Outcome.state]
      exact ih
  | damping_factor s df _ hs ih =>
    by_cases c : df < 0 ∨ df > 1
    · simp only [set_damping_factor, if_pos c] at hs
      cases hs
    · simp only [set_damping_factor, if_neg c, Outcome.state]
      exact ih
  | alpha s a _ hs ih =>
    by_cases c : a < 0 ∨ a > 1
    · simp only [set_alpha, if_pos c] at hs
      cases hs
    · simp only [set_alpha, if_neg c, Outcome.state]
      exact ih
  | beta s b _ hs ih =>
    by_cases c : b < 0 ∨ b > 1
    · simp only [set_beta, if_pos c] at hs
      cases hs
    · simp only [set_beta, if_neg c, Outcome.state]
      exact ih
  | samples_per_symbol s sps _ hs ih =>
    by_cases c : sps ≤ 0
    · simp only [set_samples_per_symbol, if_pos c] at hs
      cases hs
    · have e : set_samples_per_symbol L s sps =
          design_filter L { s with d_sps := sps } sps s.d_rolloff s.d_filter_size := by
        simp only [set_samples_per_symbol, if_neg c]
      rw [e]
      have hl := design_filter_length L { s with d_sps := sps } sps s.d_rolloff s.d_filter_size
      have hf := (design_filter_fields L { s with d_sps := sps } sps s.d_rolloff
        s.d_filter_size).2.2.1
      rw [hf]
      exact ⟨ih.1, hl.1, hl.2⟩
  | rolloff s r _ hs ih =>
    by_cases c : r < 0 ∨ r > 1
    · simp only [set_rolloff, if_pos c] at hs
      cases hs
    · have e : set_rolloff L s r =
          design_filter L { s with d_rolloff := r } s.d_sps r s.d_filter_size := by
        simp only [set_rolloff, if_neg c]
      rw [e]
      have hl := design_filter_length L { s with d_rolloff := r } s.d_sps r s.d_filter_size
      have hf := (design_filter_fields L { s with d_rolloff := r } s.d_sps r
        s.d_filter_size).2.2.1
      rw [hf]
      exact ⟨ih.1, hl.1, hl.2⟩
  | filter_size s n _ hs ih =>
    by_cases c : n ≤ 0
    · simp only [set_filter_size, if_pos c] at hs
      cases hs
    · have e : set_filter_size L s n =
          design_filter L { s with d_filter_size := n } s.d_sps s.d_rolloff n := by
        simp only [set_filter_size, if_neg c]
      rw [e]
      have hl := design_filter_length L { s with d_filter_size := n } s.d_sps s.d_rolloff n
      have hf := (design_filter_fields L { s with d_filter_size := n } s.d_sps s.d_rolloff
        n).2.2.1
      rw [hf]
      exact ⟨not_le.mp c, hl.1, hl.2⟩
  | work s n inp o _ ih =>
    unfold work
    split
    · exact ih
    · have ht := work_loop_taps L inp (s, o) n.toNat
      have hf := work_loop_filter_size L inp (s, o) n.toNat
      show 0 < (work_loop L inp (s, o) n.toNat).1.d_filter_size ∧
        (work_loop L inp (s, o) n.toNat).1.d_taps_lower.length =
          (work_loop L inp (s, o) n.toNat).1.d_filter_size.toNat ∧
        (work_loop L inp (s, o) n.toNat).1.d_taps_upper.length =
          (work_loop L inp (s, o) n.toNat).1.d_filter_size.toNat
      rw [ht.1, ht.2, hf]
      exact ih

/-- C11: for every positive filter_size (and every sps, rolloff and prior object),
design_filter leaves both tap vectors with exactly filter_size entries, whether or not the
normaliser of the design is zero; and in every state the block can be driven into from a
construction that returns, by setter calls that return and work calls, both tap vectors
have exactly get_filter_size() entries. -/
theorem tap_length_invariant (L : Libm K) (s : State K) (h : Driven L s) (t : State K)
    (sps ro : K) (F : Int) (hF : 0 < F) :
    ((design_filter L t sps ro F).state.d_taps_lower.length : Int) = F ∧
    ((design_filter L t sps ro F).state.d_taps_upper.length : Int) = F ∧
    (s.d_taps_lower.length : Int) = get_filter_size s ∧
    (s.d_taps_upper.length : Int) = get_filter_size s := by
  have hd := design_filter_length L t sps ro F
  obtain ⟨h0, hl, hu⟩ := taps_sized_of_driven L s h
  simp only [get_filter_size]
  rw [hd.1, hd.2, hl, hu]
  omega

/-- C11, at the start state of the phase scenario and a design for 32 taps. -/
theorem tap_length_invariant_witness :
    ((design_filter realLibm raw0 4 (35 / 100) 32).state.d_taps_lower.length : Int) = 32 ∧
    ((design_filter realLibm raw0 4 (35 / 100) 32).state.d_taps_upper.length : Int) = 32 ∧
    (phase_start.d_taps_lower.length : Int) = get_filter_size phase_start ∧
    (phase_start.d_taps_upper.length : Int) = get_filter_size phase_start :=
  tap_length_invariant realLibm phase_start
    (Reachable.driven realLibm phase_start phase_start_reachable) raw0 4 (35 / 100) 32
    (by norm_num)

/-- C12: a work call made while the redesign flag is set returns 0 and clears the flag; the
object is otherwise the one it was given (freq, phase, gains, tap vectors, limits and all
other members) and the output buffers, corrected and diagnostic, are untouched at every
position, whatever the requested count and the input. -/
theorem work_skip_frame (L : Libm K) (s : State K) (n : Int) (inp : Int → gr_complex K)
    (o : OutputItems K) (h : s.d_updated = true) :
    (work L s n inp o).ret = 0 ∧
    (work L s n inp o).state.d_updated = false ∧
    (work L s n inp o).state = { s with d_updated := false } ∧
    (work L s n inp o).state.d_freq = s.d_freq ∧
    (work L s n inp o).state.d_phase = s.d_phase ∧
    (work L s n inp o).state.d_alpha = s.d_alpha ∧
    (work L s n inp o).state.d_beta = s.d_beta ∧
    (work L s n inp o).state.d_taps_lower = s.d_taps_lower ∧
    (work L s n inp o).state.d_taps_upper = s.d_taps_upper ∧
    (work L s n inp o).state.d_max_freq = s.d_max_freq ∧
    (work L s n inp o).state.d_min_freq = s.d_min_freq ∧
    (work L s n inp o).items = o ∧
    (∀ j, (work L s n inp o).items.out j = o.out j ∧ (work L s n inp o).items.frq j = o.frq j ∧
      (work L s n inp o).items.phs j = o.phs j ∧ (work L s n inp o).items.err j = o.err j) := by
  have e : work L s n inp o = ⟨0, { s with d_updated := false }, o⟩ := by
    simp only [work, h, if_true]
  rw [e]
  exact ⟨rfl, rfl, rfl, rfl, rfl, rfl, rfl, rfl, rfl, rfl, rfl, rfl,
    fun _ => ⟨rfl, rfl, rfl, rfl⟩⟩

/-- C12, at the freshly built block for sps 4, rolloff 0.35, 32 taps, asked for 7 items. -/
theorem work_skip_frame_witness :
    (work realLibm (gr_fll_band_edge_cc realLibm raw0 4 (35 / 100) 32 0).state 7
      phase_input (items0 4)).ret = 0 ∧
    (work realLibm (gr_fll_band_edge_cc realLibm raw0 4 (35 / 100) 32 0).state 7
      phase_input (items0 4)).items = items0 4 :=
  have h := work_skip_frame realLibm (gr_fll_band_edge_cc realLibm raw0 4 (35 / 100) 32 0).state
    7 phase_input (items0 4)
    (construct_state_updated realLibm raw0 4 (35 / 100) 32 0 (by norm_num) (by norm_num)
      (by norm_num) (by norm_num) (by norm_num))
  ⟨h.1, h.2.2.2.2.2.2.2.2.2.2.2.1⟩

theorem set_beta_ok (s : State K) (b : K) (h0 : 0 ≤ b) (h1 : b ≤ 1) :
    set_beta s b = .ok { s with d_beta := b } := by
  have hb : ¬ (b < 0 ∨ b > 1) := by
    rintro (h | h)
    · exact absurd h (not_lt.mpr h0)
    · exact absurd h (not_lt.mpr h1)
  simp only [set_beta, if_neg hb]

/-- C13: for a in [0,1], set_alpha(a) returns normally, get_alpha() then returns a, and
every other member (beta, loop bandwidth, damping, sps, rolloff, filter size, both tap
vectors, both limits, freq, phase, redesign flag, history) is unchanged, so the next work
call behaves as it would have without the setter call; the same holds for set_beta with
the roles of alpha and beta exchanged. -/
theorem gain_setters_frame (L : Libm K) (s : State K) (a : K) (h0 : 0 ≤ a) (h1 : a ≤ 1)
    (n : Int) (inp : Int → gr_complex K) (o : OutputItems K) :
    (set_alpha s a = .ok { s with d_alpha := a } ∧
      get_alpha (set_alpha s a).state = a ∧
      get_beta (set_alpha s a).state = get_beta s ∧
      get_loop_bandwidth (set_alpha s a).state = get_loop_bandwidth s ∧
      get_damping_factor (set_alpha s a).state = get_damping_factor s ∧
      get_samples_per_symbol (set_alpha s a).state = get_samples_per_symbol s ∧
      get_rolloff (set_alpha s a).state = get_rolloff s ∧
      get_filter_size (set_alpha s a).state = get_filter_size s ∧
      (set_alpha s a).state.d_taps_lower = s.d_taps_lower ∧
      (set_alpha s a).state.d_taps_upper = s.d_taps_upper ∧
      (set_alpha s a).state.d_max_freq = s.d_max_freq ∧
      (set_alpha s a).state.d_min_freq = s.d_min_freq ∧
      (set_alpha s a).state.d_freq = s.d_freq ∧
      (set_alpha s a).state.d_phase = s.d_phase ∧
      (set_alpha s a).state.d_updated = s.d_updated ∧
      (work L (set_alpha s a).state n inp o).ret = (work L s n inp o).ret) ∧
    (set_beta s a = .ok { s with d_beta := a } ∧
      get_beta (set_beta s a).state = a ∧
      get_alpha (set_beta s a).state = get_alpha s ∧
      get_loop_bandwidth (set_beta s a).state = get_loop_bandwidth s ∧
      get_damping_factor (set_beta s a).state = get_damping_factor s ∧
      get_samples_per_symbol (set_beta s a).state = get_samples_per_symbol s ∧
      get_rolloff (set_beta s a).state = get_rolloff s ∧
      get_filter_size (set_beta s a).state = get_filter_size s ∧
      (set_beta s a).state.d_taps_lower = s.d_taps_lower ∧
      (set_beta s a).state.d_taps_upper = s.d_taps_upper ∧
      (set_beta s a).state.d_max_freq = s.d_max_freq ∧
      (set_beta s a).state.d_min_freq = s.d_min_freq ∧
      (set_beta s a).state.d_freq = s.d_freq ∧
      (set_beta s a).state.d_phase = s.d_phase ∧
      (set_beta s a).state.d_updated = s.d_updated ∧
      (work L (set_beta s a).state n inp o).ret = (work L s n inp o).ret) := by
  have ea := set_alpha_ok s a h0 h1
  have eb := set_beta_ok s a h0 h1
  constructor
  · rw [ea]
    refine ⟨rfl, rfl, rfl, rfl, rfl, rfl, rfl, rfl, rfl, rfl, rfl, rfl, rfl, rfl, rfl, ?_⟩
    simp only [Outcome.state, work]
    split <;> rfl
  · rw [eb]
    refine ⟨rfl, rfl, rfl, rfl, rfl, rfl, rfl, rfl, rfl, rfl, rfl, rfl, rfl, rfl, rfl, ?_⟩
    simp only [Outcome.state, work]
    split <;> rfl

/-- C13, at the start state of the phase scenario and the gain 1/4. -/
theorem gain_setters_frame_witness :
    get_alpha (set_alpha phase_start (1 / 4)).state = 1 / 4 ∧
    get_beta (set_beta phase_start (1 / 4)).state = 1 / 4 :=
  have h := gain_setters_frame realLibm phase_start (1 / 4) (by norm_num) (by norm_num) 3
    phase_input (items0 1)
  ⟨h.1.2.1, h.2.2.1⟩

/-- C19: for damping in [0,1] and bandwidth >= 0 the gains computed by update_gains satisfy
alpha <= 1 and beta < 4; beta is not bounded by 1: damping 0 and bandwidth 1 give beta = 2,
an argument on which set_beta throws. -/
theorem update_gains_bounds (s : State K) (hd0 : 0 ≤ s.d_damping) (hd1 : s.d_damping ≤ 1)
    (hbw : 0 ≤ s.d_loop_bw) :
    (update_gains s).d_alpha ≤ 1 ∧ (update_gains s).d_beta < 4 ∧
    (update_gains { s with d_damping := 0, d_loop_bw := 1 }).d_beta = 2 ∧
    (set_beta s (update_gains { s with d_damping := 0, d_loop_bw := 1 }).d_beta).isOk
      = false := by
  have hden : 0 < 1 + 2 * s.d_damping * s.d_loop_bw + s.d_loop_bw * s.d_loop_bw := by
    positivity
  have h2 : (update_gains { s with d_damping := 0, d_loop_bw := 1 }).d_beta = 2 := by
    simp only [update_gains]
    norm_num
  refine ⟨?_, ?_, h2, ?_⟩
  · simp only [update_gains]
    rw [div_le_one hden]
    nlinarith [sq_nonneg (1 - s.d_loop_bw), mul_nonneg hbw (sub_nonneg.mpr hd1)]
  · simp only [update_gains]
    rw [div_lt_iff₀ hden]
    nlinarith [mul_nonneg hd0 hbw]
  · rw [h2]
    have hb : (2 : K) < 0 ∨ (2 : K) > 1 := Or.inr (by norm_num)
    simp only [set_beta, if_pos hb, Outcome.isOk]

/-- C19, at damping 1 and bandwidth 1, where alpha reaches 1. -/
theorem update_gains_bounds_witness :
    (update_gains { (raw0 : State ℚ) with d_damping := 1, d_loop_bw := 1 }).d_alpha ≤ 1 ∧
    (update_gains { (raw0 : State ℚ) with d_damping := 1, d_loop_bw := 1 }).d_alpha = 1 ∧
    (update_gains { (raw0 : State ℚ) with d_damping := 1, d_loop_bw := 1 }).d_beta < 4 :=
  have h := update_gains_bounds
    { (raw0 : State ℚ) with d_damping := 1, d_loop_bw := 1 }
    (by norm_num) (by norm_num) (by norm_num)
  ⟨h.1, by simp only [update_gains]; norm_num, h.2.1⟩

theorem work_body_congr (L : Libm K) (inp1 inp2 : Int → gr_complex K) (i : Nat)
    (st : State K × OutputItems K) (h : inp1 i = inp2 i) :
    work_body L inp1 i st = work_body L inp2 i st := by
  simp only [work_body, h]

theorem work_loop_congr (L : Libm K) (inp1 inp2 : Int → gr_complex K)
    (st : State K × OutputItems K) (n : Nat) (h : ∀ i : Nat, i < n → inp1 i = inp2 i) :
    work_loop L inp1 st n = work_loop L inp2 st n := by
  induction n with
  | zero => rfl
  | succ m ih =>
    simp only [work_loop]
    rw [ih (fun i hi => h i (Nat.lt_succ_of_lt hi)),
      work_body_congr L inp1 inp2 m _ (h m (Nat.lt_succ_self m))]

/-- C17: for every state and requested count n, two input windows that agree on samples
0 .. n-1 give the same work call in every respect: the same returned count, the same object
afterwards (freq, phase and all other members) and the same output buffers, corrected and
diagnostic; the trailing look-ahead samples are never read. -/
theorem work_lookahead_independent (L : Libm K) (s : State K) (n : Int)
    (inp1 inp2 : Int → gr_complex K) (o : OutputItems K)
    (h : ∀ i : Nat, (i : Int) < n → inp1 i = inp2 i) :
    work L s n inp1 o = work L s n inp2 o ∧
    (work L s n inp1 o).ret = (work L s n inp2 o).ret ∧
    (work L s n inp1 o).state.d_freq = (work L s n inp2 o).state.d_freq ∧
    (work L s n inp1 o).state.d_phase = (work L s n inp2 o).state.d_phase ∧
    (work L s n inp1 o).items = (work L s n inp2 o).items := by
  have e : work L s n inp1 o = work L s n inp2 o := by
    simp only [work]
    rw [work_loop_congr L inp1 inp2 (s, o) n.toNat (fun i hi => h i (by omega))]
  rw [e]
  exact ⟨rfl, rfl, rfl, rfl, rfl⟩

/-- C17, at the phase scenario: two inputs that differ from sample 2 on, 2 items requested. -/
theorem work_lookahead_independent_witness :
    phase_input 2 ≠ phase_input_tail 2 ∧
    work realLibm phase_start 2 phase_input (items0 4) =
      work realLibm phase_start 2 phase_input_tail (items0 4) :=
  ⟨by
    intro h
    have := congrArg gr_complex.re h
    simp [phase_input, phase_input_tail] at this,
   (work_lookahead_independent realLibm phase_start 2 phase_input phase_input_tail (items0 4)
    (by
      intro i hi
      simp only [phase_input_tail, if_pos hi])).1⟩

theorem work_loop_out_other (L : Libm K) (inp : Int → gr_complex K)
    (st : State K × OutputItems K) (n : Nat) (j : Int)
    (hj : ∀ i : Nat, i < n → j ≠ (i : Int) + st.1.d_filter_size - 1) :
    (work_loop L inp st n).2.out j = st.2.out j := by
  induction n with
  | zero => rfl
  | succ m ih =>
    simp only [work_loop]
    rw [work_body_out, work_loop_filter_size,
      Function.update_noteq (hj m (Nat.lt_succ_self m))]
    exact ih (fun i hi => hj i (Nat.lt_succ_of_lt hi))

/-- C16: in a work call that is not skipped, with requested count n and filter size F, the
corrected buffer after the call holds input[i]*exp(j*phase_i) at index i + F - 1 for every
i in [0, n) (so no later iteration overwrites it), and every index below F - 1 or from
n + F - 1 on holds what it held on entry: the indices written are exactly F-1 .. n+F-2.
For F >= 2 the index written for the last sample is at or beyond the requested count. -/
theorem output_placement (L : Libm K) (s : State K) (n : Int) (inp : Int → gr_complex K)
    (o : OutputItems K) (hrun : s.d_updated = false) :
    (∀ i : Nat, (i : Int) < n →
      (work L s n inp o).items.out ((i : Int) + s.d_filter_size - 1) =
        inp i * gr_expj L (work_loop L inp (s, o) i).1.d_phase) ∧
    (∀ j : Int, (j < s.d_filter_size - 1 ∨ n + s.d_filter_size - 1 ≤ j) →
      (work L s n inp o).items.out j = o.out j) ∧
    (2 ≤ s.d_filter_size → ∀ i : Nat, (i : Int) + 1 = n →
      n ≤ (i : Int) + s.d_filter_size - 1 ∧
      (work L s n inp o).items.out ((i : Int) + s.d_filter_size - 1) =
        inp i * gr_expj L (work_loop L inp (s, o) i).1.d_phase) := by
  rw [work_run L s n inp o hrun]
  have key : ∀ i : Nat, (i : Int) < n →
      (work_loop L inp (s, o) n.toNat).2.out ((i : Int) + s.d_filter_size - 1) =
        inp i * gr_expj L (work_loop L inp (s, o) i).1.d_phase :=
    fun i hi => work_loop_out L inp (s, o) n.toNat i (by omega)
  refine ⟨key, ?_, ?_⟩
  · intro j hj
    apply work_loop_out_other L inp (s, o) n.toNat j
    intro i hi
    show j ≠ (i : Int) + s.d_filter_size - 1
    rcases hj with h | h
    · omega
    · omega
  · intro hF i hi
    exact ⟨by omega, key i (by omega)⟩

/-- C16, at the phase scenario (2 taps), 2 items requested. -/
theorem output_placement_witness :
    (work realLibm phase_start 2 phase_input (items0 1)).items.out 0 =
      (items0 1 : OutputItems ℝ).out 0 ∧
    (work realLibm phase_start 2 phase_input (items0 1)).items.out 3 =
      (items0 1 : OutputItems ℝ).out 3 :=
  have h := output_placement realLibm phase_start 2 phase_input (items0 1)
    phase_start_facts.1
  ⟨h.2.1 0 (Or.inl (by rw [phase_start_facts.2.1]; norm_num)),
   h.2.1 3 (Or.inr (by rw [phase_start_facts.2.1]; norm_num))⟩

/-- C18, amended: for every sps, rolloff and filter size for which the normaliser of the
design (the signed sum of the prototype taps) is not zero, design_filter produces taps that
are numbers and conjugate pairs, slot by slot (given the parities of sine and cosine);
hence on any window whose samples are all real multiples of one complex number, the two
filter outputs have the same squared magnitude and the discriminator error is 0. -/
theorem conjugate_filter_pair (L : Libm K) (hL : L.Lawful) (s : State K) (sps ro : K)
    (F : Int) (hpw : design_power L sps ro F ≠ 0)
    (k : Nat) (window : Int → gr_complex K) (c : gr_complex K) (i : Int)
    (hwin : ∀ j, IsRealMultiple c (window j)) :
    design_filter L s sps ro F = .ok (design_filter L s sps ro F).state ∧
    (design_filter L s sps ro F).state.d_taps_upper.getD k 0 =
      ((design_filter L s sps ro F).state.d_taps_lower.getD k 0).conj ∧
    (design_filter L s sps ro F).state.d_taps_upper[k]? =
      ((design_filter L s sps ro F).state.d_taps_lower[k]?).map gr_complex.conj ∧
    (dot (design_filter L s sps ro F).state.d_taps_lower window i F.toNat).norm =
      (dot (design_filter L s sps ro F).state.d_taps_upper window i F.toNat).norm ∧
    (dot (design_filter L s sps ro F).state.d_taps_lower window i F.toNat).norm -
      (dot (design_filter L s sps ro F).state.d_taps_upper window i F.toNat).norm = 0 := by
  have hc := design_filter_conj L hL s sps ro F hpw
  have hlen := design_filter_length L s sps ro F
  have hz := dot_conj_norm (design_filter L s sps ro F).state.d_taps_lower
    (design_filter L s sps ro F).state.d_taps_upper window c i hc hwin F.toNat
  refine ⟨Outcome.eq_ok_of_isExact _ (design_filter_isExact L s sps ro F hpw), hc k, ?_,
    sub_eq_zero.mp hz, hz⟩
  by_cases hk : k < F.toNat
  · have h1 : k < (design_filter L s sps ro F).state.d_taps_lower.length := by
      rw [hlen.1]; exact hk
    have h2 : k < (design_filter L s sps ro F).state.d_taps_upper.length := by
      rw [hlen.2]; exact hk
    have := hc k
    rw [List.getD_eq_getElem _ _ h1, List.getD_eq_getElem _ _ h2] at this
    rw [List.getElem?_eq_getElem h1, List.getElem?_eq_getElem h2, this]
    rfl
  · have h1 : (design_filter L s sps ro F).state.d_taps_lower.length ≤ k := by
      rw [hlen.1]; omega
    have h2 : (design_filter L s sps ro F).state.d_taps_upper.length ≤ k := by
      rw [hlen.2]; omega
    rw [List.getElem?_eq_none h1, List.getElem?_eq_none h2]
    rfl

/-- C18, over the reals for sps 4, rolloff 0.35, 32 taps and a window that is constantly
3 + 4j. -/
theorem conjugate_filter_pair_witness :
    design_filter realLibm raw0 4 (35 / 100) 32 =
      .ok (design_filter realLibm raw0 4 (35 / 100) 32).state ∧
    (design_filter realLibm raw0 4 (35 / 100) 32).state.d_taps_upper.getD 5 0 =
      ((design_filter realLibm raw0 4 (35 / 100) 32).state.d_taps_lower.getD 5 0).conj ∧
    (dot (design_filter realLibm raw0 4 (35 / 100) 32).state.d_taps_lower (fun _ => ⟨3, 4⟩) 0
        (32 : Int).toNat).norm -
      (dot (design_filter realLibm raw0 4 (35 / 100) 32).state.d_taps_upper (fun _ => ⟨3, 4⟩) 0
        (32 : Int).toNat).norm = 0 :=
  have h := conjugate_filter_pair realLibm realLibm_lawful raw0 4 (35 / 100) 32
    design_power_4_35_32 5 (fun _ => ⟨3, 4⟩) ⟨3, 4⟩ 0
    (fun _ => ⟨1, by rw [gr_complex.eq_iff]; simp⟩)
  ⟨h.1, h.2.1, h.2.2.2.2⟩

theorem dot_eq_correlate (taps : List (gr_complex K)) (out : Int → gr_complex K) (i : Int)
    (m : Nat) : dot taps out i m = correlate taps out i m := by
  induction m with
  | zero =>
    rw [gr_complex.eq_iff]
    simp [dot, correlate]
  | succ m ih =>
    rw [gr_complex.eq_iff]
    simp only [dot, correlate, Finset.sum_range_succ, gr_complex.add_re, gr_complex.add_im]
    rw [ih]
    exact ⟨rfl, rfl⟩

theorem loop_error_eq_discriminator (L : Libm K) (inp : Int → gr_complex K) (i : Nat)
    (st : State K × OutputItems K) : loop_error L inp i st = discriminator L inp i st := by
  simp only [loop_error, discriminator, dot_eq_correlate]

theorem work_loop_config (L : Libm K) (inp : Int → gr_complex K)
    (st : State K × OutputItems K) (n : Nat) :
    (work_loop L inp st n).1.d_alpha = st.1.d_alpha ∧
    (work_loop L inp st n).1.d_beta = st.1.d_beta ∧
    (work_loop L inp st n).1.d_min_freq = st.1.d_min_freq ∧
    (work_loop L inp st n).1.d_max_freq = st.1.d_max_freq := by
  induction n with
  | zero => exact ⟨rfl, rfl, rfl, rfl⟩
  | succ m ih =>
    simp only [work_loop]
    rw [work_body_fst]
    exact ih

theorem work_body_size (L : Libm K) (inp : Int → gr_complex K) (i : Nat)
    (st : State K × OutputItems K) : (work_body L inp i st).2.size = st.2.size := by
  simp only [work_body]
  split <;> rfl

theorem work_loop_size (L : Libm K) (inp : Int → gr_complex K)
    (st : State K × OutputItems K) (n : Nat) : (work_loop L inp st n).2.size = st.2.size := by
  induction n with
  | zero => rfl
  | succ m ih =>
    simp only [work_loop]
    rw [work_body_size]
    exact ih

/-- The diagnostic entries of sample `i` after `n > i` loop iterations are the values the
iteration for sample `i` produced. -/
theorem work_loop_diag (L : Libm K) (inp : Int → gr_complex K)
    (st : State K × OutputItems K) (hsize : st.2.size = 4) (n i : Nat) (hi : i < n) :
    (work_loop L inp st n).2.frq i = (work_loop L inp st (i + 1)).1.d_freq ∧
    (work_loop L inp st n).2.phs i = (work_loop L inp st (i + 1)).1.d_phase ∧
    (work_loop L inp st n).2.err i = loop_error L inp i (work_loop L inp st i) := by
  induction n with
  | zero => exact absurd hi (Nat.not_lt_zero i)
  | succ m ih =>
    have hd := work_body_diag L inp m (work_loop L inp st m)
      ((work_loop_size L inp st m).trans hsize)
    rcases Nat.lt_succ_iff_lt_or_eq.mp hi with h | h
    · have hne : (i : Int) ≠ (m : Int) := fun e => absurd (Int.ofNat_inj.mp e) (Nat.ne_of_lt h)
      have := ih h
      simp only [work_loop] at this ⊢
      rw [hd.2.1, hd.2.2.1, hd.2.2.2, Function.update_noteq hne, Function.update_noteq hne,
        Function.update_noteq hne]
      exact this
    · subst h
      simp only [work_loop]
      rw [hd.2.1, hd.2.2.1, hd.2.2.2, Function.update_same, Function.update_same,
        Function.update_same]
      exact ⟨rfl, rfl, rfl⟩

theorem clamp_eq (x lo hi : K) (h : lo ≤ hi) :
    (if x > hi then hi else if x < lo then lo else x) = clamp x lo hi := by
  unfold clamp
  split_ifs with h1 h2
  · rw [min_eq_right (le_of_lt h1), max_eq_right h]
  · rw [min_eq_left (le_trans (le_of_lt h2) h), max_eq_left (le_of_lt h2)]
  · rw [min_eq_left (not_lt.mp h1), max_eq_right (not_lt.mp h2)]

/-- C14: in a work call that is not skipped (limits ordered, min_freq <= max_freq), the
iteration for sample i, entered with loop values freq and phase and with discriminator
value e = |out_lower|^2 - |out_upper|^2 (the two sums over k in [0, filter_size) of
taps[k]*corrected[i+k]), leaves freq' = clamp(freq + beta*e, min_freq, max_freq) and
phase' = wrap(phase + (freq + beta*e) + alpha*e): the phase advances by the updated,
not yet clamped frequency. With 4 output streams, the diagnostic streams hold freq',
phase' and e at index i after the call. -/
theorem per_sample_update (L : Libm K) (s : State K) (n : Int) (inp : Int → gr_complex K)
    (o : OutputItems K) (hrun : s.d_updated = false) (hlim : s.d_min_freq ≤ s.d_max_freq)
    (i : Nat) (hi : (i : Int) < n) :
    (work_loop L inp (s, o) (i + 1)).1.d_freq =
      clamp ((work_loop L inp (s, o) i).1.d_freq +
        s.d_beta * discriminator L inp i (work_loop L inp (s, o) i))
        s.d_min_freq s.d_max_freq ∧
    (work_loop L inp (s, o) (i + 1)).1.d_phase =
      wrap L ((work_loop L inp (s, o) i).1.d_phase +
        ((work_loop L inp (s, o) i).1.d_freq +
          s.d_beta * discriminator L inp i (work_loop L inp (s, o) i)) +
        s.d_alpha * discriminator L inp i (work_loop L inp (s, o) i)) ∧
    (o.size = 4 →
      (work L s n inp o).items.frq i = (work_loop L inp (s, o) (i + 1)).1.d_freq ∧
      (work L s n inp o).items.phs i = (work_loop L inp (s, o) (i + 1)).1.d_phase ∧
      (work L s n inp o).items.err i = discriminator L inp i (work_loop L inp (s, o) i)) := by
  obtain ⟨ca, cb, cmin, cmax⟩ := work_loop_config L inp (s, o) i
  simp only at ca cb cmin cmax
  have hstep : work_loop L inp (s, o) (i + 1) = work_body L inp i (work_loop L inp (s, o) i) :=
    rfl
  refine ⟨?_, ?_, ?_⟩
  · rw [hstep, work_body_fst, loop_error_eq_discriminator]
    simp only [ca, cb, cmin, cmax]
    exact clamp_eq _ _ _ hlim
  · rw [hstep, work_body_fst, loop_error_eq_discriminator]
    simp only [ca, cb, cmin, cmax, M_TWOPI, wrap]
  · intro hsize
    rw [work_run L s n inp o hrun]
    have hd := work_loop_diag L inp (s, o) hsize n.toNat i (by omega)
    rw [loop_error_eq_discriminator] at hd
    exact hd

/-- C14, at sample 1 of the phase scenario with the diagnostic streams present. -/
theorem per_sample_update_witness :
    (work realLibm phase_start 2 phase_input (items0 4)).items.err (1 : Nat) =
      discriminator realLibm phase_input 1
        (work_loop realLibm phase_input (phase_start, items0 4) 1) ∧
    (work realLibm phase_start 2 phase_input (items0 4)).items.frq (1 : Nat) =
      (work_loop realLibm phase_input (phase_start, items0 4) (1 + 1)).1.d_freq :=
  have h := per_sample_update realLibm phase_start 2 phase_input (items0 4)
    phase_start_facts.1
    (by
      rw [phase_start_facts.2.2.2.2.2.2.2.2.1, phase_start_facts.2.2.2.2.2.2.2.2.2]
      have := Real.pi_pos
      linarith)
    1 (by norm_num)
  ⟨(h.2.2 rfl).2.2, (h.2.2 rfl).1⟩

/-- One loop iteration of a frozen loop leaves the object as it was. -/
theorem frozen_body (L : Libm K) (hpi : 0 < L.pi) (inp : Int → gr_complex K) (i : Nat)
    (st : State K × OutputItems K) (ha : st.1.d_alpha = 0) (hb : st.1.d_beta = 0)
    (hf : st.1.d_freq = 0) (hp : st.1.d_phase = 0)
    (hmin : st.1.d_min_freq ≤ 0) (hmax : 0 ≤ st.1.d_max_freq) :
    (work_body L inp i st).1 = st.1 := by
  rw [work_body_fst]
  have n1 : ¬ (0 : K) > st.1.d_max_freq := not_lt.mpr hmax
  have n2 : ¬ (0 : K) < st.1.d_min_freq := not_lt.mpr hmin
  have n3 : ¬ (0 : K) > L.pi := not_lt.mpr hpi.le
  have n4 : ¬ (0 : K) < -L.pi := by
    intro h
    linarith
  simp only [ha, hb, hf, hp, zero_mul, add_zero, if_neg n1, if_neg n2, if_neg n3, if_neg n4]
  obtain ⟨s, o⟩ := st
  cases s
  simp only at ha hb hf hp
  subst ha hb hf hp
  rfl

theorem frozen_loop (L : Libm K) (hpi : 0 < L.pi) (inp : Int → gr_complex K)
    (st : State K × OutputItems K) (ha : st.1.d_alpha = 0) (hb : st.1.d_beta = 0)
    (hf : st.1.d_freq = 0) (hp : st.1.d_phase = 0)
    (hmin : st.1.d_min_freq ≤ 0) (hmax : 0 ≤ st.1.d_max_freq) (n : Nat) :
    (work_loop L inp st n).1 = st.1 := by
  induction n with
  | zero => rfl
  | succ m ih =>
    simp only [work_loop]
    rw [frozen_body L hpi inp m (work_loop L inp st m) (by rw [ih]; exact ha)
      (by rw [ih]; exact hb) (by rw [ih]; exact hf) (by rw [ih]; exact hp)
      (by rw [ih]; exact hmin) (by rw [ih]; exact hmax)]
    exact ih

/-- What holds in every state of a frozen loop: both gains, the bandwidth and both loop
values are 0, and the limits enclose 0. -/
theorem frozen_invariant (L : Libm K) (hpi : 0 < L.pi) (s : State K)
    (h : FrozenReachable L s) :
    s.d_alpha = 0 ∧ s.d_beta = 0 ∧ s.d_loop_bw = 0 ∧ s.d_freq = 0 ∧ s.d_phase = 0 ∧
      s.d_min_freq ≤ 0 ∧ 0 ≤ s.d_max_freq := by
  induction h with
  | construct raw sps ro F s hc =>
    obtain ⟨h1, h2, h3, h4, h5⟩ := construct_ok_valid L raw sps ro F 0 s hc
    obtain ⟨f1, f2, f3, f4, f5, f6, f7, _⟩ :=
      construct_state_fields L raw sps ro F 0 h1 h2 h3 h4 h5
    rw [Outcome.state_eq_of_ok _ s hc] at f1 f2 f3 f4 f5 f6 f7
    have hpos : 0 ≤ M_TWOPI L * (2 / sps) := by
      unfold M_TWOPI; positivity
    rw [f1, f2, f3, f4, f5, f6, f7]
    refine ⟨by simp, by simp, rfl, rfl, rfl, ?_, hpos⟩
    rw [neg_mul]; exact neg_nonpos.mpr hpos
  | loop_bandwidth s t _ hs ih =>
    simp only [set_loop_bandwidth] at hs
    split at hs
    · cases hs
    · cases hs
      obtain ⟨_, _, _, i4, i5, i6, i7⟩ := ih
      simp only [update_gains, mul_zero, zero_div]
      exact ⟨trivial, trivial, trivial, i4, i5, i6, i7⟩
  | damping_factor s df t _ hs ih =>
    simp only [set_damping_factor] at hs
    split at hs
    · cases hs
    · cases hs
      obtain ⟨_, _, i3, i4, i5, i6, i7⟩ := ih
      simp only [update_gains, i3, mul_zero, zero_div]
      exact ⟨trivial, trivial, trivial, i4, i5, i6, i7⟩
  | alpha s t _ hs ih =>
    simp only [set_alpha] at hs
    split at hs
    · cases hs
    · cases hs
      obtain ⟨_, i2, i3, i4, i5, i6, i7⟩ := ih
      exact ⟨rfl, i2, i3, i4, i5, i6, i7⟩
  | beta s t _ hs ih =>
    simp only [set_beta] at hs
    split at hs
    · cases hs
    · cases hs
      obtain ⟨i1, _, i3, i4, i5, i6, i7⟩ := ih
      exact ⟨i1, rfl, i3, i4, i5, i6, i7⟩
  | samples_per_symbol s sps t _ hs ih =>
    simp only [set_samples_per_symbol] at hs
    split at hs
    · cases hs
    · obtain ⟨_, _, _, f4, _, f6, f7, f8, f9, f10, f11, _⟩ :=
        design_filter_ok_fields L _ t _ _ _ hs
      rw [f4, f6, f7, f8, f9, f10, f11]
      exact ih
  | rolloff s r t _ hs ih =>
    simp only [set_rolloff] at hs
    split at hs
    · cases hs
    · obtain ⟨_, _, _, f4, _, f6, f7, f8, f9, f10, f11, _⟩ :=
        design_filter_ok_fields L _ t _ _ _ hs
      rw [f4, f6, f7, f8, f9, f10, f11]
      exact ih
  | filter_size s n t _ hs ih =>
    simp only [set_filter_size] at hs
    split at hs
    · cases hs
    · obtain ⟨_, _, _, f4, _, f6, f7, f8, f9, f10, f11, _⟩ :=
        design_filter_ok_fields L _ t _ _ _ hs
      rw [f4, f6, f7, f8, f9, f10, f11]
      exact ih
  | work s n inp o _ ih =>
    unfold work
    split
    · exact ih
    · obtain ⟨i1, i2, i3, i4, i5, i6, i7⟩ := ih
      have hst : (work_loop L inp (s, o) n.toNat).1 = s :=
        frozen_loop L hpi inp (s, o) i1 i2 i4 i5 i6 i7 n.toNat
      dsimp only
      rw [hst]
      exact ⟨i1, i2, i3, i4, i5, i6, i7⟩

/-- A frozen-loop state is a reachable state. -/
theorem FrozenReachable.reachable (L : Libm K) (s : State K) (h : FrozenReachable L s) :
    Reachable L s := by
  induction h with
  | construct raw sps ro F s hc => exact Reachable.construct raw sps ro F 0 s hc
  | loop_bandwidth s t _ hs ih => exact Reachable.loop_bandwidth s 0 t ih hs
  | damping_factor s df t _ hs ih => exact Reachable.damping_factor s df t ih hs
  | alpha s t _ hs ih => exact Reachable.alpha s 0 t ih hs
  | beta s t _ hs ih => exact Reachable.beta s 0 t ih hs
  | samples_per_symbol s sps t _ hs ih => exact Reachable.samples_per_symbol s sps t ih hs
  | rolloff s r t _ hs ih => exact Reachable.rolloff s r t ih hs
  | filter_size s n t _ hs ih => exact Reachable.filter_size s n t ih hs
  | work s n inp o _ ih => exact Reachable.work s n inp o ih

/-- C15, amended: after a construction with bandwidth 0, as long as set_loop_bandwidth,
set_alpha and set_beta are only called with 0 and every filter design on the way has a
normaliser that is not zero, every state reached by setter and work calls on arbitrary input
is a reachable state with alpha = beta = 0 and freq = phase = 0; a further work call leaves
freq = phase = 0, and when it is not skipped every rotated sample it writes (at index
i + filter_size - 1, for i in [0, n)) equals the input sample i. -/
theorem frozen_loop_identity (L : Libm K) (hL : L.Lawful) (s : State K)
    (h : FrozenReachable L s) (n : Int) (inp : Int → gr_complex K) (o : OutputItems K) :
    Reachable L s ∧
    get_alpha s = 0 ∧ get_beta s = 0 ∧ s.d_freq = 0 ∧ s.d_phase = 0 ∧
    (work L s n inp o).state.d_freq = 0 ∧ (work L s n inp o).state.d_phase = 0 ∧
    (s.d_updated = false → ∀ i : Nat, (i : Int) < n →
      (work L s n inp o).items.out ((i : Int) + s.d_filter_size - 1) = inp i) := by
  obtain ⟨i1, i2, _, i4, i5, i6, i7⟩ := frozen_invariant L hL.pi_pos s h
  obtain ⟨_, _, _, j4, j5, _, _⟩ :=
    frozen_invariant L hL.pi_pos _ (FrozenReachable.work s n inp o h)
  refine ⟨FrozenReachable.reachable L s h, i1, i2, i4, i5, j4, j5, ?_⟩
  intro hrun i hi
  rw [work_run L s n inp o hrun]
  have key := work_loop_out L inp (s, o) n.toNat i (by omega)
  have hst := frozen_loop L hL.pi_pos inp (s, o) i1 i2 i4 i5 i6 i7 i
  simp only at key
  rw [key, hst]
  simp only [i5]
  rw [gr_complex.eq_iff]
  simp [hL.cos_zero, hL.sin_zero]

/-- C15, at the block built for sps 4, rolloff 0.35, 32 taps and bandwidth 0, after its
skipped work call, for 2 items of the phase scenario's input. -/
theorem frozen_loop_identity_witness :
    (work realLibm
      (work realLibm (gr_fll_band_edge_cc realLibm raw0 4 (35 / 100) 32 0).state 2
        phase_input (items0 1)).state 2 phase_input (items0 1)).state.d_phase = 0 :=
  (frozen_loop_identity realLibm realLibm_lawful _
    (FrozenReachable.work _ 2 phase_input (items0 1)
      (FrozenReachable.construct raw0 4 (35 / 100) 32 _
        (construct_exact realLibm raw0 4 (35 / 100) 32 0 (by norm_num) (by norm_num)
          (by norm_num) (by norm_num) (by norm_num) design_power_4_35_32)))
    2 phase_input (items0 1)).2.2.2.2.2.2.1

/-! ### The design with a zero normaliser

For sps 1/2, rolloff 3/4 and 1 tap, `M = rint(1 / (1/2)) = 2`, the only prototype tap is
`sinc(-2) + sinc(-1) = sin(-2π)/(-2π) + sin(-π)/(-π) = 0`, and so is `power`: the second
loop of design_filter computes `bb_taps[0] / power = 0 / 0`. -/

theorem rint_one_div_half : realLibm.rint (((1 : Int) : ℝ) / (1 / 2)) = 2 := by
  have e : (((1 : Int) : ℝ) / (1 / 2)) = ((2 : Int) : ℝ) := by norm_num
  simp only [realLibm, rintHalfEven]
  rw [e, Int.floor_intCast]
  norm_num

theorem sinc_neg_two : sinc realLibm (-2) = 0 := by
  have e : Real.pi * (-2) = -(2 * Real.pi) := by ring
  simp only [sinc, realLibm, e, Real.sin_neg, Real.sin_two_pi]
  norm_num

theorem sinc_neg_one : sinc realLibm (-1) = 0 := by
  have e : Real.pi * (-1) = -Real.pi := by ring
  simp only [sinc, realLibm, e, Real.sin_neg, Real.sin_pi]
  norm_num

/-- The first loop of design_filter for sps 1/2, rolloff 3/4 and 1 tap leaves the prototype
vector [0] and the normaliser 0. -/
theorem bb_loop_zero :
    bb_loop realLibm (1 / 2) (3 / 4) (realLibm.rint (((1 : Int) : ℝ) / (1 / 2)))
      (1 : Int).toNat = ([0], 0) := by
  have e0 : (1 : Int).toNat = 1 := rfl
  have e1 : (3 / 4 : ℝ) * (-((2 : Int) : ℝ) + ((0 : Nat) : ℝ) * 2 / (1 / 2)) - 1 / 2 = -2 := by
    norm_num
  have e2 : (3 / 4 : ℝ) * (-((2 : Int) : ℝ) + ((0 : Nat) : ℝ) * 2 / (1 / 2)) + 1 / 2 = -1 := by
    norm_num
  rw [rint_one_div_half, e0]
  simp only [bb_loop, e1, e2, sinc_neg_two, sinc_neg_one]
  simp

theorem design_power_zero : design_power realLibm (1 / 2) (3 / 4) 1 = 0 := by
  simp only [design_power, bb_loop_zero]

/-- The constructor accepts sps 1/2, rolloff 3/4, 1 tap and every bandwidth that is not
negative, and returns an object whose taps are no numbers. -/
theorem construct_zero_power (bw : ℝ) (hbw : 0 ≤ bw) :
    (gr_fll_band_edge_cc realLibm raw0 (1 / 2) (3 / 4) 1 bw).isOk = true ∧
    (gr_fll_band_edge_cc realLibm raw0 (1 / 2) (3 / 4) 1 bw).isExact = false ∧
    ¬ ∃ s, gr_fll_band_edge_cc realLibm raw0 (1 / 2) (3 / 4) 1 bw = .ok s := by
  obtain ⟨h1, _, h3⟩ := construct_state realLibm raw0 (1 / 2) (3 / 4) 1 bw (by norm_num)
    (by norm_num) (by norm_num) (by norm_num) hbw
  have hx := (design_filter_non_finite realLibm
    (configured realLibm raw0 (1 / 2) (3 / 4) 1 bw) (1 / 2) (3 / 4) 1 (by norm_num)
    design_power_zero).2
  rw [hx] at h3
  refine ⟨h1, h3, ?_⟩
  rintro ⟨s, hs⟩
  rw [hs] at h3
  cases h3

/-- C4, refuted as stated: sps 1/2, rolloff 3/4, 1 tap and bandwidth 2π/100 are valid and
the constructor returns, but the only prototype tap and the normaliser are both exactly 0,
so the tap written by design_filter is the quotient 0/0. The object holds no numbers as
taps, the discriminator of the first processed sample and with it the stored frequency are
no numbers, and the construction yields no state in which the frequency lies between the
limits. -/
theorem freq_invariant_counterexample :
    (0 : ℝ) < 1 / 2 ∧ (0 : ℝ) ≤ 3 / 4 ∧ (3 / 4 : ℝ) ≤ 1 ∧ (0 : Int) < 1 ∧
    (0 : ℝ) ≤ 2 * Real.pi / 100 ∧
    (gr_fll_band_edge_cc realLibm raw0 (1 / 2) (3 / 4) 1 (2 * Real.pi / 100)).isOk = true ∧
    bb_loop realLibm (1 / 2) (3 / 4) (realLibm.rint (((1 : Int) : ℝ) / (1 / 2)))
      (1 : Int).toNat = ([0], 0) ∧
    design_power realLibm (1 / 2) (3 / 4) 1 = 0 ∧
    gr_fll_band_edge_cc realLibm raw0 (1 / 2) (3 / 4) 1 (2 * Real.pi / 100) =
      .non_finite (gr_fll_band_edge_cc realLibm raw0 (1 / 2) (3 / 4) 1
        (2 * Real.pi / 100)).state ∧
    ¬ ∃ s, gr_fll_band_edge_cc realLibm raw0 (1 / 2) (3 / 4) 1 (2 * Real.pi / 100) = .ok s := by
  have hbw : (0 : ℝ) ≤ 2 * Real.pi / 100 := by positivity
  obtain ⟨c1, c2, c3⟩ := construct_zero_power (2 * Real.pi / 100) hbw
  refine ⟨by norm_num, by norm_num, by norm_num, by norm_num, hbw, c1, bb_loop_zero,
    design_power_zero, ?_, c3⟩
  cases hc : gr_fll_band_edge_cc realLibm raw0 (1 / 2) (3 / 4) 1 (2 * Real.pi / 100) with
  | ok s => exact absurd ⟨s, hc⟩ c3
  | out_of_range e =>
    rw [hc] at c1
    cases c1
  | non_finite e => rfl

/-- C15, refuted as stated: for the valid configuration sps 1/2, rolloff 3/4, 1 tap and
bandwidth 0 the constructor returns with alpha = beta = 0, but the normaliser of the design
is exactly 0 and the taps are quotients 0/0, so the discriminator of every processed sample
is no number, and neither are the products beta*error and alpha*error added to the
frequency and the phase: the construction yields no state of a frozen loop. -/
theorem frozen_loop_identity_counterexample :
    (gr_fll_band_edge_cc realLibm raw0 (1 / 2) (3 / 4) 1 0).isOk = true ∧
    get_alpha (gr_fll_band_edge_cc realLibm raw0 (1 / 2) (3 / 4) 1 0).state = 0 ∧
    get_beta (gr_fll_band_edge_cc realLibm raw0 (1 / 2) (3 / 4) 1 0).state = 0 ∧
    design_power realLibm (1 / 2) (3 / 4) 1 = 0 ∧
    (gr_fll_band_edge_cc realLibm raw0 (1 / 2) (3 / 4) 1 0).isExact = false ∧
    ¬ ∃ s, gr_fll_band_edge_cc realLibm raw0 (1 / 2) (3 / 4) 1 0 = .ok s := by
  obtain ⟨c1, c2, c3⟩ := construct_zero_power 0 le_rfl
  obtain ⟨_, _, _, _, f5, f6, _⟩ := construct_state_fields realLibm raw0 (1 / 2) (3 / 4) 1 0
    (by norm_num) (by norm_num) (by norm_num) (by norm_num) le_rfl
  refine ⟨c1, ?_, ?_, design_power_zero, c2, ?_⟩
  · simp only [get_alpha]
    rw [f5]
    simp
  · simp only [get_beta]
    rw [f6]
    simp
  · exact c3

/-- C18, refuted as stated: for sps 1/2, rolloff 3/4 and 1 tap the only prototype tap and
the normaliser are both exactly 0, so design_filter writes the quotient 0/0 into
taps_lower[0] and taps_upper[0]: the design produces no pair of numbers of which one is the
conjugate of the other. -/
theorem conjugate_filter_pair_counterexample :
    (0 : ℝ) < 1 / 2 ∧ (0 : Int) < 1 ∧
    (bb_loop realLibm (1 / 2) (3 / 4) (realLibm.rint (((1 : Int) : ℝ) / (1 / 2)))
      (1 : Int).toNat).1.getD 0 0 = 0 ∧
    design_power realLibm (1 / 2) (3 / 4) 1 = 0 ∧
    design_filter realLibm raw0 (1 / 2) (3 / 4) 1 =
      .non_finite (design_filter realLibm raw0 (1 / 2) (3 / 4) 1).state ∧
    ¬ ∃ t, design_filter realLibm raw0 (1 / 2) (3 / 4) 1 = .ok t := by
  obtain ⟨d1, d2⟩ := design_filter_non_finite realLibm raw0 (1 / 2) (3 / 4) 1 (by norm_num)
    design_power_zero
  refine ⟨by norm_num, by norm_num, ?_, design_power_zero, d1, ?_⟩
  · rw [bb_loop_zero]
    rfl
  · rintro ⟨t, ht⟩
    rw [ht] at d2
    cases d2

end Theorems

end FllBandEdge
